import Mathlib

/-! The streamline file facade, the image space and the image container of
`tractor.track`.

A shallow embedding of `Files.h`, `Image.h` and the labelled reader of
`Trackvis.h` of the `tractor.track` package.
C++ exceptions are modelled by `Except String`, object state by explicit
records, and virtual member functions whose overriding bodies live outside
these headers by fields of an environment record. Counters of type `size_t` are
natural numbers: each increment goes with the transfer of one record, so they
stay far below `2^64`. The stride and offset arithmetic of `Image` is that of
`size_t`: products and sums wrap around at `2^64`. Values of type `double` are
finite numbers, the two infinities and NaN, with the rounding of finite results
and the library sine and cosine taken from the platform.
-/

namespace Tractor

/-! ## Streams -/

/-- State of a `std::istream`: the stream buffer it reads from and the three
iostate flags. -/
structure IStream (β : Type) where
  buf : β
  eofbit : Bool
  failbit : Bool
  badbit : Bool
deriving DecidableEq, Repr

/-- The `good()` query of `std::ios`: no state flag is set. -/
def IStream.good {β : Type} (s : IStream β) : Bool :=
  !(s.eofbit || s.failbit || s.badbit)

/-- The `seekg(pos)` member of `std::istream`: clears `eofbit`, then (sentry) sets
`failbit` and stops when the stream is not good, otherwise asks the buffer to
reposition and sets `failbit` when the buffer refuses. -/
def IStream.seekg {β : Type} (pubseekpos : β → Nat → Option β) (s : IStream β)
    (offset : Nat) : IStream β :=
  let s1 : IStream β := { s with eofbit := false }
  if s1.good then
    match pubseekpos s1.buf offset with
    | some b => { s1 with buf := b }
    | none => { s1 with failbit := true }
  else
    { s1 with failbit := true }

/-! ## Streamlines -/

/-- The label set of a streamline (`std::set<int>`), kept as a list. -/
abbrev LabelSet := List Int

/-- Modelled from the spec: the `Streamline` record of `Streamline.h`, which is
not part of these headers: ordered points, the seed index and the set of region
labels. -/
structure Streamline where
  points : List (Int × Int × Int)
  seed : Nat
  labels : LabelSet
deriving DecidableEq, Repr

/-- Modelled from the spec: a default-constructed `Streamline` of `Streamline.h`:
no points, no labels. -/
def Streamline.empty : Streamline := ⟨[], 0, []⟩

/-- Modelled from the spec: `Streamline::setLabels` of `Streamline.h`: replaces the
label set of the streamline. -/
def Streamline.setLabels (data : Streamline) (labels : LabelSet) : Streamline :=
  { data with labels := labels }

/-! ## Source side of `Files.h` -/

/-- The concrete reader classes the facade can instantiate. -/
inductive Format where
  | trackvis
  | mrtrix
deriving DecidableEq, Repr

/-- Members of `SourceFileAdapter`: the attached input stream, the streamline
count and the property names. -/
structure SourceFileAdapter (β : Type) where
  kind : Format
  inputStream : IStream β
  count : Nat
  properties : List String
deriving DecidableEq, Repr

/-- What the source side takes from outside `Files.h`: the file system, the
stream buffer, and the bodies of the virtual members that the concrete readers
override. The virtual members receive the dynamic type of the adapter and cannot
change it. -/
structure SourceEnv (β : Type) where
  /-- the test `std::ifstream(path).good()` -/
  fileExists : String → Bool
  /-- the stream that `inputStream.attach(path)` yields -/
  attach : String → IStream β
  /-- the value of the uninitialised member `count` after construction -/
  initialCount : Nat
  /-- repositioning of the stream buffer -/
  pubseekpos : β → Nat → Option β
  /-- body of `open()` in the concrete reader -/
  openImpl : SourceFileAdapter β → Except String (SourceFileAdapter β)
  /-- body of `read(data)` in the concrete reader -/
  readImpl : SourceFileAdapter β → Streamline →
    Except String (SourceFileAdapter β × Streamline)
  /-- body of `close()` in the concrete reader -/
  closeImpl : SourceFileAdapter β → Except String (SourceFileAdapter β)
  /-- decoded content of a label sidecar file -/
  labelFile : String → Except String (List LabelSet)

/-- The constructor `SourceFileAdapter(path)`, reached through the constructor
of the concrete reader of the given kind. -/
def SourceFileAdapter.new {β : Type} (env : SourceEnv β) (kind : Format)
    (path : String) : SourceFileAdapter β :=
  { kind := kind, inputStream := env.attach path, count := env.initialCount,
    properties := [] }

/-- Virtual call `source->open()`: the dynamic type is kept. -/
def SourceFileAdapter.open {β : Type} (env : SourceEnv β)
    (a : SourceFileAdapter β) : Except String (SourceFileAdapter β) :=
  (env.openImpl a).map fun a1 => { a1 with kind := a.kind }

/-- Virtual call `source->read(data)`: the dynamic type is kept. -/
def SourceFileAdapter.read {β : Type} (env : SourceEnv β)
    (a : SourceFileAdapter β) (data : Streamline) :
    Except String (SourceFileAdapter β × Streamline) :=
  (env.readImpl a data).map fun r => ({ r.1 with kind := a.kind }, r.2)

/-- Virtual call `source->close()`: the dynamic type is kept. -/
def SourceFileAdapter.close {β : Type} (env : SourceEnv β)
    (a : SourceFileAdapter β) : Except String (SourceFileAdapter β) :=
  (env.closeImpl a).map fun a1 => { a1 with kind := a.kind }

/-- The accessor `nStreamlines()`. -/
def SourceFileAdapter.nStreamlines {β : Type} (a : SourceFileAdapter β) : Nat :=
  a.count

/-- The default `SourceFileAdapter::seek(offset)`. -/
def SourceFileAdapter.seek {β : Type} (env : SourceEnv β)
    (a : SourceFileAdapter β) (offset : Nat) :
    Except String (SourceFileAdapter β) :=
  let a1 : SourceFileAdapter β :=
    { a with inputStream := a.inputStream.seekg env.pubseekpos offset }
  if !a1.inputStream.good then
    throw ("Failed to seek to offset " ++ toString offset)
  else
    pure a1

/-- The loop of the default `skip`: `for (i; i<n; i++) read(ignored)`. -/
def SourceFileAdapter.skipLoop {β : Type} (env : SourceEnv β) (n : Nat) (i : Nat)
    (a : SourceFileAdapter β) (ignored : Streamline) :
    Except String (SourceFileAdapter β × Streamline) :=
  if i < n then
    match a.read env ignored with
    | .ok r => SourceFileAdapter.skipLoop env n (i + 1) r.1 r.2
    | .error e => .error e
  else
    pure (a, ignored)
termination_by n - i

/-- The default `SourceFileAdapter::skip(n)`. -/
def SourceFileAdapter.skip {β : Type} (env : SourceEnv β)
    (a : SourceFileAdapter β) (n : Nat) : Except String (SourceFileAdapter β) :=
  (SourceFileAdapter.skipLoop env n 0 a Streamline.empty).map Prod.fst

/-- Members of `StreamlineFileSource`. -/
structure StreamlineFileSource (β : Type) where
  currentStreamline : Nat
  totalStreamlines : Nat
  source : SourceFileAdapter β
  haveLabels : Bool
  labels : List LabelSet
  offsets : List Nat
deriving DecidableEq, Repr

/-- `StreamlineFileSource::fileExists`. -/
def StreamlineFileSource.fileExists {β : Type} (env : SourceEnv β) (path : String) :
    Bool :=
  env.fileExists path

/-- Modelled from the spec: `StreamlineFileSource::readLabels(path)`, declared in
`Files.h` and defined outside it: loads the Streamline Label List sidecar, one list
entry per streamline index; a list whose length differs from the streamline count
of the file is a fatal data error; otherwise the source has labels and holds the
list of the file. -/
def StreamlineFileSource.readLabels {β : Type} (env : SourceEnv β)
    (s : StreamlineFileSource β) (path : String) :
    Except String (StreamlineFileSource β) :=
  match env.labelFile path with
  | .error e => .error e
  | .ok l =>
    if l.length ≠ s.totalStreamlines then
      throw "Label list length does not match the number of streamlines"
    else
      pure { s with haveLabels := true, labels := l }

/-- The format probe at the head of the constructor: which reader is
instantiated on which path, or the exception. -/
def StreamlineFileSource.selectSource {β : Type} (env : SourceEnv β)
    (fileStem : String) : Except String (SourceFileAdapter β) :=
  if StreamlineFileSource.fileExists env (fileStem ++ ".trk") then
    pure (SourceFileAdapter.new env Format.trackvis (fileStem ++ ".trk"))
  else if StreamlineFileSource.fileExists env (fileStem ++ ".tck") then
    pure (SourceFileAdapter.new env Format.mrtrix (fileStem ++ ".tck"))
  else
    throw "Specified streamline source file does not exist"

/-- The constructor `StreamlineFileSource(fileStem, readLabels)`. -/
def StreamlineFileSource.new {β : Type} (env : SourceEnv β) (fileStem : String)
    (readLabels : Bool) : Except String (StreamlineFileSource β) :=
  match StreamlineFileSource.selectSource env fileStem with
  | .error e => .error e
  | .ok source0 =>
    match source0.open env with
    | .error e => .error e
    | .ok source =>
      let s : StreamlineFileSource β :=
        { currentStreamline := 0, totalStreamlines := source.nStreamlines,
          source := source, haveLabels := false, labels := [], offsets := [] }
      if readLabels && StreamlineFileSource.fileExists env (fileStem ++ ".trkl") then
        s.readLabels env (fileStem ++ ".trkl")
      else
        pure s

/-- `StreamlineFileSource::more`. -/
def StreamlineFileSource.more {β : Type} (s : StreamlineFileSource β) : Bool :=
  s.currentStreamline < s.totalStreamlines

/-- `StreamlineFileSource::get(data)`. -/
def StreamlineFileSource.get {β : Type} (env : SourceEnv β)
    (s : StreamlineFileSource β) (data : Streamline) :
    Except String (StreamlineFileSource β × Streamline) :=
  match s.source.read env data with
  | .error e => .error e
  | .ok r =>
    let data1 : Streamline :=
      if s.haveLabels && s.labels.length > s.currentStreamline then
        r.2.setLabels (s.labels.getD s.currentStreamline [])
      else
        r.2
    pure ({ s with source := r.1, currentStreamline := s.currentStreamline + 1 },
      data1)

/-- A run of `get` calls with no other call in between, one per caller-supplied
streamline object, in order; yields the final source and the streamlines
returned. -/
def StreamlineFileSource.getAll {β : Type} (env : SourceEnv β) :
    StreamlineFileSource β → List Streamline →
      Except String (StreamlineFileSource β × List Streamline)
  | s, [] => pure (s, [])
  | s, d :: ds =>
    match s.get env d with
    | .error e => .error e
    | .ok r =>
      match StreamlineFileSource.getAll env r.1 ds with
      | .error e => .error e
      | .ok r2 => pure (r2.1, r.2 :: r2.2)

/-! ## Sink side of `Files.h` -/

/-- Members of `SinkFileAdapter`: the attached output stream and the
streamline count. -/
structure SinkFileAdapter (γ : Type) where
  outputStream : γ
  count : Nat
deriving DecidableEq, Repr

/-- Members of `StreamlineFileSink`. -/
structure StreamlineFileSink (γ : Type) where
  currentStreamline : Nat
  fileStem : String
  sink : SinkFileAdapter γ
  needLabels : Bool
deriving DecidableEq, Repr

/-- What the sink side takes from outside `Files.h`: the output stream and the
bodies of the virtual members that `TrackvisFileSink` overrides, and of
`writeLabels`, which is declared in `Files.h` and defined outside it. -/
structure SinkEnv (γ : Type) where
  /-- the stream that `outputStream.attach(path)` yields -/
  attach : String → γ
  /-- the value of the uninitialised member `count` after construction -/
  initialCount : Nat
  /-- body of `open(append)` in the concrete writer -/
  openImpl : SinkFileAdapter γ → Bool → Except String (SinkFileAdapter γ)
  /-- body of `write(data)` in the concrete writer -/
  writeImpl : SinkFileAdapter γ → Streamline → Except String (SinkFileAdapter γ)
  /-- body of `close()` in the concrete writer -/
  closeImpl : SinkFileAdapter γ → Except String (SinkFileAdapter γ)
  /-- body of `StreamlineFileSink::writeLabels(path)` -/
  writeLabelsImpl : StreamlineFileSink γ → String →
    Except String (StreamlineFileSink γ)

/-- The constructor `SinkFileAdapter(path)`. -/
def SinkFileAdapter.new {γ : Type} (env : SinkEnv γ) (path : String) :
    SinkFileAdapter γ :=
  { outputStream := env.attach path, count := env.initialCount }

/-- `SinkFileAdapter::setCount`. -/
def SinkFileAdapter.setCount {γ : Type} (a : SinkFileAdapter γ) (count : Nat) :
    SinkFileAdapter γ :=
  { a with count := count }

/-- The constructor `StreamlineFileSink(fileStem, writeLabels, append)`. -/
def StreamlineFileSink.new {γ : Type} (env : SinkEnv γ) (fileStem : String)
    (writeLabels : Bool) (append : Bool) : Except String (StreamlineFileSink γ) :=
  match env.openImpl (SinkFileAdapter.new env (fileStem ++ ".trk")) append with
  | .error e => .error e
  | .ok sink =>
    pure { currentStreamline := 0, fileStem := fileStem, sink := sink,
           needLabels := writeLabels }

/-- `StreamlineFileSink::put(data)`. -/
def StreamlineFileSink.put {γ : Type} (env : SinkEnv γ) (s : StreamlineFileSink γ)
    (data : Streamline) : Except String (StreamlineFileSink γ) :=
  match env.writeImpl s.sink data with
  | .error e => .error e
  | .ok sink => pure { s with sink := sink, currentStreamline := s.currentStreamline + 1 }

/-- A run of `put` calls, one per streamline of the list, in order. -/
def StreamlineFileSink.putAll {γ : Type} (env : SinkEnv γ) :
    StreamlineFileSink γ → List Streamline → Except String (StreamlineFileSink γ)
  | s, [] => pure s
  | s, d :: ds =>
    match s.put env d with
    | .error e => .error e
    | .ok s1 => StreamlineFileSink.putAll env s1 ds

/-- First statement of `done()`: `sink->setCount(currentStreamline)`. -/
def StreamlineFileSink.doneSetCount {γ : Type} (s : StreamlineFileSink γ) :
    StreamlineFileSink γ :=
  { s with sink := s.sink.setCount s.currentStreamline }

/-- `StreamlineFileSink::done()`. -/
def StreamlineFileSink.done {γ : Type} (env : SinkEnv γ) (s : StreamlineFileSink γ) :
    Except String (StreamlineFileSink γ) :=
  let s1 := s.doneSetCount
  match env.closeImpl s1.sink with
  | .error e => .error e
  | .ok sink => env.writeLabelsImpl { s1 with sink := sink } (s1.fileStem ++ ".trkl")

/-! ## `Image.h`: the image space -/

/-- `Transform::eye()`: the 4x4 identity. -/
def Transform.eye {α : Type} [Zero α] [One α] : Matrix (Fin 4) (Fin 4) α :=
  fun i j => if i = j then 1 else 0

/-- The assignment `transform(i,j) = value`. -/
def Transform.set {α : Type} (t : Matrix (Fin 4) (Fin 4) α) (i j : Fin 4) (value : α) :
    Matrix (Fin 4) (Fin 4) α :=
  fun r c => if r = i ∧ c = j then value else t r c

/-- Members of `ImageSpace`. -/
structure ImageSpace (α : Type) where
  dim : Fin 3 → Int
  pixdim : Fin 3 → α
  transform : Matrix (Fin 4) (Fin 4) α

/-- A value of type `double`: a finite number, an infinity with its sign, or NaN.
The two zeros are identified, as `==` identifies them. -/
inductive Fp where
  | finite (value : ℚ)
  | infinite (negative : Bool)
  | nan
deriving DecidableEq, Repr

/-- What double arithmetic takes from the platform: the rounding of an exact
finite result to a double (an infinity on overflow), and the results of the
library sine and cosine on finite arguments. -/
structure FpEnv where
  round : ℚ → Fp
  sin : ℚ → ℚ
  cos : ℚ → ℚ

/-- Product of two doubles (IEEE 754): NaN is absorbing, an infinity times zero is
NaN, an infinity times anything else is an infinity with the product of the
signs, and a finite product is rounded. -/
def Fp.mul (env : FpEnv) : Fp → Fp → Fp
  | .nan, _ => .nan
  | _, .nan => .nan
  | .finite a, .finite b => env.round (a * b)
  | .finite a, .infinite s => if a = 0 then .nan else .infinite (s != decide (a < 0))
  | .infinite s, .finite b => if b = 0 then .nan else .infinite (s != decide (b < 0))
  | .infinite s, .infinite t => .infinite (s != t)

/-- The library `sin` on doubles: NaN at an infinity and at NaN. -/
def Fp.sin (env : FpEnv) : Fp → Fp
  | .finite a => .finite (env.sin a)
  | _ => .nan

/-- The library `cos` on doubles: NaN at an infinity and at NaN. -/
def Fp.cos (env : FpEnv) : Fp → Fp
  | .finite a => .finite (env.cos a)
  | _ => .nan

/-- `ImageSpace::sphericalToCartesian`, over the product, sine and cosine in
use; products associate to the left as in C++. -/
def ImageSpace.sphericalToCartesian {α : Type} (mul : α → α → α) (sin cos : α → α)
    (spherical : Fin 3 → α) : Fin 3 → α :=
  ![mul (mul (spherical 0) (sin (spherical 1))) (cos (spherical 2)),
    mul (mul (spherical 0) (sin (spherical 1))) (sin (spherical 2)),
    mul (spherical 0) (cos (spherical 1))]

/-- The constructor `ImageSpace(dim, pixdim, transform)`. -/
def ImageSpace.ofTransform {α : Type} (dim : Fin 3 → Int) (pixdim : Fin 3 → α)
    (transform : Matrix (Fin 4) (Fin 4) α) : Except String (ImageSpace α) :=
  pure { dim := dim, pixdim := pixdim, transform := transform }

/-- The constructor `ImageSpace(dim, pixdim)`. -/
def ImageSpace.ofPixdim {α : Type} [Zero α] [One α] (dim : Fin 3 → Int)
    (pixdim : Fin 3 → α) : ImageSpace α :=
  { dim := dim, pixdim := pixdim,
    transform := (List.finRange 3).foldl
      (fun t i => Transform.set t i.castSucc i.castSucc (pixdim i)) Transform.eye }

/-- Whether the transform held by an image space is invertible. -/
def ImageSpace.invertible (s : ImageSpace ℚ) : Prop :=
  s.transform.det ≠ 0

/-! ## `Image.h`: the image container -/

/-- The modulus of `size_t` arithmetic (64-bit). -/
def sizeMod : Nat := 2 ^ 64

/-- Product of two `size_t` values: it wraps around. -/
def mulSize (a b : Nat) : Nat := (a * b) % sizeMod

/-- Sum of two `size_t` values: it wraps around. -/
def addSize (a b : Nat) : Nat := (a + b) % sizeMod

/-- Members of `Image<ElementType, Dimensionality>`; the arrays `dims` and
`strides` are lists of `Dimensionality` entries; `space` and `sharedSpace` come
from `ImageSpaceEmbedded`. -/
structure Image (ε : Type) (Dimensionality : Nat) where
  data_ : List ε
  dims : List Nat
  strides : List Nat
  size_ : Nat
  space : Option (ImageSpace ℚ)
  sharedSpace : Bool

/-- The loop of `calculateStrides`: `for (i; i<Dimensionality; i++)`. -/
def Image.stridesLoop (Dimensionality : Nat) (dims : List Nat) (i : Nat)
    (strides : List Nat) (size_ : Nat) : List Nat × Nat :=
  if i < Dimensionality then
    Image.stridesLoop Dimensionality dims (i + 1)
      (strides.set i (mulSize (strides.getD (i - 1) 0) (dims.getD (i - 1) 0)))
      (mulSize size_ (dims.getD (i - 1) 0))
  else
    (strides, size_)
termination_by Dimensionality - i

/-- `Image::calculateStrides`: yields the strides and `size_`. -/
def Image.calculateStrides (Dimensionality : Nat) (dims : List Nat)
    (strides : List Nat) : List Nat × Nat :=
  let r := Image.stridesLoop Dimensionality dims 1 (strides.set 0 1) 1
  (r.1, mulSize r.2 (dims.getD (Dimensionality - 1) 0))

/-- `Indexer<N>::flatten`, with the specialisation `Indexer<1>`; `Indexer<0>` is
never instantiated. -/
def Indexer.flatten : Nat → List Nat → List Nat → Nat
  | 0, _, _ => 0
  | 1, loc, _ => loc.getD 0 0
  | n + 2, loc, strides =>
    addSize (mulSize (strides.getD (n + 1) 0) (loc.getD (n + 1) 0))
      (Indexer.flatten (n + 1) loc strides)

/-- The constructor `Image(const ArrayIndex &dims, const Element value)`; the
entries of `strides` are all written by `calculateStrides`. -/
def Image.ofDims {ε : Type} (Dimensionality : Nat) (dims : List Nat) (value : ε) :
    Image ε Dimensionality :=
  let r := Image.calculateStrides Dimensionality dims (List.replicate Dimensionality 0)
  { data_ := List.replicate r.2 value, dims := dims, strides := r.1, size_ := r.2,
    space := none, sharedSpace := false }

/-- `Image::flattenIndex`: the offset of an index. -/
def Image.flattenIndex {ε : Type} {Dimensionality : Nat} (img : Image ε Dimensionality)
    (loc : List Nat) : Nat :=
  Indexer.flatten Dimensionality loc img.strides

/-- `Image::size()`. -/
def Image.size {ε : Type} {Dimensionality : Nat} (img : Image ε Dimensionality) : Nat :=
  img.data_.length

/-- An index is in range when it has one component per axis, each below the
dimension on that axis. -/
def Image.inRange (dims loc : List Nat) : Prop :=
  loc.length = dims.length ∧ ∀ i, i < dims.length → loc.getD i 0 < dims.getD i 0

/-- The offset of an index in mixed radix over the dimensions, first index
fastest. -/
def Image.radix : List Nat → List Nat → Nat
  | d :: ds, l :: ls => l + d * Image.radix ds ls
  | _, _ => 0

/-- Reading entry `i` of a `std::array`: reading beyond the end is undefined in
C++ and is reported here as an error of its own. -/
def arrayRead (a : List Nat) (i : Nat) : Except String Nat :=
  match a.get? i with
  | some v => pure v
  | none => throw "undefined: array read beyond its end"

/-- The loop of `at(const ArrayIndex &)`: `for (int i=0; i<3; i++)`, entered at
counter `i` with `remaining` iterations to go. -/
def Image.atLoop (dims loc : List Nat) : Nat → Nat → Except String Unit
  | 0, _ => pure ()
  | remaining + 1, i =>
    match arrayRead loc i with
    | .error e => .error e
    | .ok l =>
      match arrayRead dims i with
      | .error e => .error e
      | .ok d =>
        if l ≥ d then throw "Array index is out of range"
        else Image.atLoop dims loc remaining (i + 1)

/-- `Image::at(const ArrayIndex &loc)`: yields the offset into `data_` of the
element whose reference is returned. -/
def Image.at {ε : Type} {Dimensionality : Nat} (img : Image ε Dimensionality)
    (loc : List Nat) : Except String Nat :=
  match Image.atLoop img.dims loc 3 0 with
  | .error e => .error e
  | .ok _ => pure (img.flattenIndex loc)

/-- Members of `LabelledTrackvisDataSource` the constructor and destructor touch:
the label list pointer inherited from the base class (`none` is `NULL`), the
ownership flag, and whether the auxiliary binary stream is attached. -/
structure LabelledTrackvisDataSource where
  labelList : Option Nat
  externalLabelList : Bool
  auxAttached : Bool
deriving DecidableEq, Repr

/-- What the labelled reader takes from outside `Trackvis.h`: the value of the
label list pointer left by the base class, of the uninitialised flag, and the
body of `attach(fileStem)`. -/
structure TrackvisEnv where
  initialLabelList : Option Nat
  initialExternal : Bool
  attachImpl : LabelledTrackvisDataSource → String →
    Except String LabelledTrackvisDataSource

/-- The constructor `LabelledTrackvisDataSource(fileStem, labelList)`. The second
statement assigns the parameter `labelList` to itself. -/
def LabelledTrackvisDataSource.new (env : TrackvisEnv) (fileStem : String)
    (labelList : Option Nat) : Except String LabelledTrackvisDataSource :=
  let this0 : LabelledTrackvisDataSource :=
    { labelList := env.initialLabelList, externalLabelList := env.initialExternal,
      auxAttached := true }
  let labelList := labelList
  let this1 := { this0 with externalLabelList := labelList != none }
  env.attachImpl this1 fileStem

/-- The destructor `~LabelledTrackvisDataSource()` over the set of live label
lists: yields the lists still live afterwards. -/
def LabelledTrackvisDataSource.destroy (s : LabelledTrackvisDataSource)
    (live : List Nat) : List Nat :=
  if !s.externalLabelList then
    match s.labelList with
    | some p => live.erase p
    | none => live
  else
    live

/-- The loop `while (source.more()) source.get(data)` over at most `fuel`
tests of `more()`: yields the final source and the streamlines returned. -/
def StreamlineFileSource.drain {β : Type} (env : SourceEnv β) :
    Nat → StreamlineFileSource β → Except String (StreamlineFileSource β × List Streamline)
  | 0, _ => throw "out of fuel"
  | fuel + 1, s =>
    if s.more then
      match s.get env Streamline.empty with
      | .error e => .error e
      | .ok r =>
        match StreamlineFileSource.drain env fuel r.1 with
        | .error e => .error e
        | .ok r2 => pure (r2.1, r.2 :: r2.2)
    else
      pure (s, [])

/-! ## Example environments -/

/-- A toy stream buffer: the records of a file and the read position, counted
in records. -/
structure FileBuf where
  content : List Streamline
  pos : Nat
deriving DecidableEq, Repr

/-- An example reader environment over `FileBuf`: the listed paths exist, every
streamline file holds `records`, every sidecar holds `labels`; `open` takes the
count from the file, `read` decodes the record at the position and fails at the
end of the file. -/
def exampleSourceEnv (files : List String) (records : List Streamline)
    (labels : List LabelSet) : SourceEnv FileBuf :=
  { fileExists := fun p => files.contains p
    attach := fun _ => ⟨⟨records, 0⟩, false, false, false⟩
    initialCount := 0
    pubseekpos := fun b offset =>
      if offset ≤ b.content.length then some { b with pos := offset } else none
    openImpl := fun a => pure { a with count := a.inputStream.buf.content.length }
    readImpl := fun a _ =>
      match a.inputStream.buf.content.get? a.inputStream.buf.pos with
      | some r =>
        pure ({ a with inputStream :=
                  { a.inputStream with buf :=
                      { a.inputStream.buf with pos := a.inputStream.buf.pos + 1 } } },
              { r with labels := [] })
      | none => throw "Unexpected end of file"
    closeImpl := fun a => pure a
    labelFile := fun _ => pure labels }

/-- An example: a streamline file `a.trk` of two streamlines with a sidecar
`a.trkl` of two label sets. -/
def labelledExampleEnv : SourceEnv FileBuf :=
  exampleSourceEnv ["a.trk", "a.trkl"] [⟨[(0, 0, 0)], 0, []⟩, ⟨[(1, 1, 1)], 0, []⟩]
    [[1], [2, 3]]

/-- Modelled from the spec: a reader whose `open()` rejects the header of the file,
a configuration error reported at open (spec, error handling design); the rest is
the example reader. -/
def failingOpenEnv (files : List String) : SourceEnv FileBuf :=
  { exampleSourceEnv files [] [] with
    openImpl := fun _ => throw "Invalid header" }

/-- An example of double arithmetic for witnesses: finite products are exact,
sine and cosine are their first Taylor terms. -/
def exampleFpEnv : FpEnv :=
  { round := fun q => Fp.finite q
    sin := fun q => q - q * q * q / 6
    cos := fun q => 1 - q * q / 2 }

/-- A toy streamline file on the writing side: the records of the body and the
streamline count field of the header. -/
structure SinkFile where
  records : List Streamline
  header : Nat
deriving DecidableEq, Repr

/-- An example writer environment over `SinkFile`: the file at the path already
holds `existing`; `open(false)` starts a new file, `open(true)` keeps the file,
`write` appends one record, `close` stores the adapter's count in the header. -/
def exampleSinkEnv (existing : List Streamline) : SinkEnv SinkFile :=
  { attach := fun _ => ⟨existing, existing.length⟩
    initialCount := 0
    openImpl := fun a append =>
      if append then pure a else pure { a with outputStream := ⟨[], 0⟩ }
    writeImpl := fun a data =>
      pure { a with outputStream :=
               { a.outputStream with records := a.outputStream.records ++ [data] } }
    closeImpl := fun a =>
      pure { a with outputStream := { a.outputStream with header := a.count } }
    writeLabelsImpl := fun s _ => pure s }

/-- The words of the spec for `skip(n)`: `n` consecutive `read` calls, each into a
streamline that is then discarded. -/
def SourceFileAdapter.readAndDiscard {β : Type} (env : SourceEnv β) :
    Nat → SourceFileAdapter β → Except String (SourceFileAdapter β)
  | 0, a => pure a
  | n + 1, a =>
    match a.read env Streamline.empty with
    | .error e => .error e
    | .ok r => SourceFileAdapter.readAndDiscard env n r.1

/-- An example environment for the labelled reader: the base class leaves the
label list pointer null and `attach` leaves the members as they are. -/
def exampleTrackvisEnv : TrackvisEnv :=
  { initialLabelList := none
    initialExternal := false
    attachImpl := fun s _ => pure s }

/-- Label loading on a source: it fails when the sidecar cannot be decoded or its
list has another length than the streamline count, and otherwise only sets the
label flag and the list. -/
theorem StreamlineFileSource.readLabels_spec {β : Type} (env : SourceEnv β)
    (s : StreamlineFileSource β) (path : String) :
    (∀ s1, s.readLabels env path = .ok s1 →
      env.labelFile path = .ok s1.labels ∧ s1.labels.length = s.totalStreamlines ∧
      s1 = { s with haveLabels := true, labels := s1.labels }) ∧
    (∀ l, env.labelFile path = .ok l → l.length ≠ s.totalStreamlines →
      ∃ e, s.readLabels env path = .error e) ∧
    (∀ l, env.labelFile path = .ok l → l.length = s.totalStreamlines →
      s.readLabels env path = .ok { s with haveLabels := true, labels := l }) := by
  unfold StreamlineFileSource.readLabels
  refine ⟨?_, ?_, ?_⟩
  · intro s1 h
    cases hl : env.labelFile path with
    | error e => rw [hl] at h; cases h
    | ok l =>
      rw [hl] at h
      dsimp only at h
      by_cases hlen : l.length ≠ s.totalStreamlines
      · rw [if_pos hlen] at h
        cases h
      · rw [if_neg hlen] at h
        simp only [pure, Except.pure, Except.ok.injEq] at h
        subst h
        exact ⟨rfl, by simpa using hlen, rfl⟩
  · intro l hl hlen
    rw [hl]
    dsimp only
    rw [if_pos hlen]
    exact ⟨_, rfl⟩
  · intro l hl hlen
    rw [hl]
    dsimp only
    rw [if_neg (by simpa using hlen)]
    rfl

/-- The constructor after the format probe has selected a reader: a source that
is returned holds that reader, opened, at cursor 0 with the reader's count as
total; construction fails exactly when `open()` fails or the label loading is
due and fails. -/
theorem StreamlineFileSource.new_after_select {β : Type} (env : SourceEnv β)
    (fileStem : String) (readLabels : Bool) (a0 : SourceFileAdapter β)
    (hsel : StreamlineFileSource.selectSource env fileStem = .ok a0) :
    (∀ s, StreamlineFileSource.new env fileStem readLabels = .ok s →
      s.source.kind = a0.kind ∧ a0.open env = .ok s.source ∧
      s.currentStreamline = 0 ∧ s.totalStreamlines = s.source.nStreamlines) ∧
    ((∃ e, StreamlineFileSource.new env fileStem readLabels = .error e) ↔
      ((∃ e, a0.open env = .error e) ∨
        (∃ a1 e, a0.open env = .ok a1 ∧ readLabels = true ∧
          env.fileExists (fileStem ++ ".trkl") = true ∧
          StreamlineFileSource.readLabels env
            { currentStreamline := 0, totalStreamlines := a1.nStreamlines, source := a1,
              haveLabels := false, labels := [], offsets := [] }
            (fileStem ++ ".trkl") = .error e))) := by
  have hkind : ∀ a1, a0.open env = .ok a1 → a1.kind = a0.kind := by
    intro a1 h
    unfold SourceFileAdapter.open at h
    cases ho : env.openImpl a0 with
    | error e => rw [ho] at h; cases h
    | ok b =>
      rw [ho] at h
      simp only [Except.map, Except.ok.injEq] at h
      subst h
      rfl
  unfold StreamlineFileSource.new
  rw [hsel]
  dsimp only
  cases hop : a0.open env with
  | error e =>
    dsimp only
    exact ⟨fun s h => (by cases h), ⟨fun _ => Or.inl ⟨e, rfl⟩, fun _ => ⟨e, rfl⟩⟩⟩
  | ok a1 =>
    dsimp only
    by_cases hc : (readLabels && StreamlineFileSource.fileExists env (fileStem ++ ".trkl")) = true
    · have hc2 : readLabels = true ∧ env.fileExists (fileStem ++ ".trkl") = true := by
        simpa [StreamlineFileSource.fileExists] using hc
      rw [if_pos hc]
      constructor
      · intro s h
        obtain ⟨_, _, hs⟩ := (StreamlineFileSource.readLabels_spec env _ _).1 s h
        rw [hs]
        exact ⟨hkind a1 hop, rfl, rfl, rfl⟩
      · constructor
        · rintro ⟨e, he⟩
          exact Or.inr ⟨a1, e, rfl, hc2.1, hc2.2, he⟩
        · rintro (⟨e, he⟩ | ⟨a2, e, h2, _, _, he⟩)
          · cases he
          · simp only [Except.ok.injEq] at h2
            subst h2
            exact ⟨e, he⟩
    · rw [if_neg hc]
      constructor
      · intro s h
        simp only [pure, Except.pure, Except.ok.injEq] at h
        subst h
        exact ⟨hkind a1 hop, rfl, rfl, rfl⟩
      · constructor
        · rintro ⟨e, he⟩
          cases he
        · rintro (⟨e, he⟩ | ⟨a2, e, _, h3, h4, _⟩)
          · cases he
          · exfalso
            apply hc
            simp [StreamlineFileSource.fileExists, h3, h4]

/-- C1 fails as stated: with a reader whose `open()` rejects the file, construction
fails although `a.trk` exists. -/
theorem StreamlineFileSource.new_open_failure_counterexample :
    (failingOpenEnv ["a.trk"]).fileExists ("a" ++ ".trk") = true ∧
    StreamlineFileSource.new (failingOpenEnv ["a.trk"]) "a" true = .error "Invalid header" :=
  ⟨by decide, rfl⟩

/-- C1 as amended: constructing a `StreamlineFileSource` from a stem uses the TrackVis
reader on `stem.trk` whenever that file exists (whether or not `stem.tck` exists),
else the MRtrix reader on `stem.tck` when that exists; it fails with the
constructor's own error when neither file exists, and otherwise fails exactly when
the selected reader's `open()` fails or the label sidecar is to be loaded and its
loading fails. -/
theorem StreamlineFileSource.new_probes_format {β : Type} (env : SourceEnv β)
    (fileStem : String) (readLabels : Bool) :
    (env.fileExists (fileStem ++ ".trk") = false →
      env.fileExists (fileStem ++ ".tck") = false →
      StreamlineFileSource.new env fileStem readLabels
        = .error "Specified streamline source file does not exist") ∧
    (∀ (kind : Format) (path : String),
      (env.fileExists (fileStem ++ ".trk") = true ∧
          kind = Format.trackvis ∧ path = fileStem ++ ".trk") ∨
        (env.fileExists (fileStem ++ ".trk") = false ∧
          env.fileExists (fileStem ++ ".tck") = true ∧
          kind = Format.mrtrix ∧ path = fileStem ++ ".tck") →
      (∀ s, StreamlineFileSource.new env fileStem readLabels = .ok s →
        s.source.kind = kind ∧
        (SourceFileAdapter.new env kind path).open env = .ok s.source) ∧
      ((∃ e, StreamlineFileSource.new env fileStem readLabels = .error e) ↔
        ((∃ e, (SourceFileAdapter.new env kind path).open env = .error e) ∨
          (∃ a1 e, (SourceFileAdapter.new env kind path).open env = .ok a1 ∧
            readLabels = true ∧ env.fileExists (fileStem ++ ".trkl") = true ∧
            StreamlineFileSource.readLabels env
              { currentStreamline := 0, totalStreamlines := a1.nStreamlines, source := a1,
                haveLabels := false, labels := [], offsets := [] }
              (fileStem ++ ".trkl") = .error e)))) := by
  constructor
  · intro h1 h2
    simp [StreamlineFileSource.new, StreamlineFileSource.selectSource,
      StreamlineFileSource.fileExists, h1, h2, throw, throwThe, MonadExceptOf.throw]
  · intro kind path hcase
    have hsel : StreamlineFileSource.selectSource env fileStem
        = .ok (SourceFileAdapter.new env kind path) := by
      rcases hcase with ⟨h1, hk, hp⟩ | ⟨h1, h2, hk, hp⟩
      · subst hk hp
        simp [StreamlineFileSource.selectSource, StreamlineFileSource.fileExists, h1, pure,
          Except.pure]
      · subst hk hp
        simp [StreamlineFileSource.selectSource, StreamlineFileSource.fileExists, h1, h2, pure,
          Except.pure]
    obtain ⟨hA, hB⟩ := StreamlineFileSource.new_after_select env fileStem readLabels _ hsel
    refine ⟨fun s hs => ?_, hB⟩
    obtain ⟨k1, k2, _, _⟩ := hA s hs
    exact ⟨k1, k2⟩

/-- A `get` that returns leaves the label list, the label flag and the total
untouched and moves the cursor by one. -/
theorem StreamlineFileSource.get_frame {β : Type} (env : SourceEnv β)
    (s s1 : StreamlineFileSource β) (data d1 : Streamline)
    (h : s.get env data = .ok (s1, d1)) :
    s1.labels = s.labels ∧ s1.haveLabels = s.haveLabels ∧
    s1.totalStreamlines = s.totalStreamlines ∧
    s1.currentStreamline = s.currentStreamline + 1 := by
  unfold StreamlineFileSource.get at h
  cases hr : s.source.read env data with
  | error e => rw [hr] at h; cases h
  | ok r =>
    rw [hr] at h
    simp only [pure, Except.pure, Except.ok.injEq, Prod.mk.injEq] at h
    obtain ⟨h1, _⟩ := h
    subst h1
    exact ⟨rfl, rfl, rfl, rfl⟩

/-- A `get` on a source with labels, at a cursor inside the label list, returns
the streamline with the list entry at the cursor as its labels. -/
theorem StreamlineFileSource.get_labels {β : Type} (env : SourceEnv β)
    (s s1 : StreamlineFileSource β) (data d1 : Streamline)
    (h : s.get env data = .ok (s1, d1)) (hl : s.haveLabels = true)
    (hc : s.currentStreamline < s.labels.length) :
    some d1.labels = s.labels.get? s.currentStreamline := by
  unfold StreamlineFileSource.get at h
  cases hr : s.source.read env data with
  | error e => rw [hr] at h; cases h
  | ok r =>
    rw [hr] at h
    simp only [pure, Except.pure, Except.ok.injEq, Prod.mk.injEq] at h
    obtain ⟨_, h2⟩ := h
    subst h2
    have : (s.haveLabels && decide (s.labels.length > s.currentStreamline)) = true := by
      simp [hl, hc]
    rw [if_pos this]
    simp [Streamline.setLabels, List.getD, List.getElem?_eq_getElem hc]

/-- Along a run of `get` calls that return, call number `i` of the run returns the
streamline labelled with list entry `cursor + i`, as long as that entry exists. -/
theorem StreamlineFileSource.getAll_labels {β : Type} (env : SourceEnv β)
    (inputs : List Streamline) :
    ∀ (s s1 : StreamlineFileSource β) (outs : List Streamline),
      StreamlineFileSource.getAll env s inputs = .ok (s1, outs) →
      s.haveLabels = true →
      outs.length = inputs.length ∧
      s1.currentStreamline = s.currentStreamline + inputs.length ∧
      s1.totalStreamlines = s.totalStreamlines ∧
      ∀ i, i < inputs.length → s.currentStreamline + i < s.labels.length →
        (outs.get? i).map Streamline.labels = s.labels.get? (s.currentStreamline + i) := by
  induction inputs with
  | nil =>
    intro s s1 outs h _
    simp only [StreamlineFileSource.getAll, pure, Except.pure, Except.ok.injEq,
      Prod.mk.injEq] at h
    obtain ⟨h1, h2⟩ := h
    subst h1 h2
    simp
  | cons d ds ih =>
    intro s s1 outs h hl
    unfold StreamlineFileSource.getAll at h
    cases hg : s.get env d with
    | error e => rw [hg] at h; cases h
    | ok r =>
      rw [hg] at h
      cases hrest : StreamlineFileSource.getAll env r.1 ds with
      | error e => simp only [hrest] at h; cases h
      | ok r2 =>
        simp only [hrest, pure, Except.pure, Except.ok.injEq, Prod.mk.injEq] at h
        obtain ⟨h1, h2⟩ := h
        subst h1 h2
        obtain ⟨f1, f2, f3, f4⟩ := StreamlineFileSource.get_frame env s r.1 d r.2 hg
        obtain ⟨i1, i2, i3, i4⟩ := ih r.1 r2.1 r2.2 hrest (by rw [f2]; exact hl)
        refine ⟨by simp [i1], by rw [i2, f4]; simp; omega, by rw [i3, f3], ?_⟩
        intro i hi hc
        cases i with
        | zero =>
          have := StreamlineFileSource.get_labels env s r.1 d r.2 hg hl (by simpa using hc)
          simpa using this
        | succ j =>
          have hj := i4 j (by simpa using hi) (by rw [f1, f4]; omega)
          rw [f1, f4] at hj
          simp only [List.get?_cons_succ]
          rw [hj]
          congr 1
          omega

/-- A construction that loads the sidecar yields a source at cursor 0 that has
labels and holds the list of the sidecar, which has as many entries as the file
has streamlines. -/
theorem StreamlineFileSource.new_loads_labels {β : Type} (env : SourceEnv β)
    (fileStem : String) (L : List LabelSet) (s0 : StreamlineFileSource β)
    (hex : env.fileExists (fileStem ++ ".trkl") = true)
    (hL : env.labelFile (fileStem ++ ".trkl") = .ok L)
    (hnew : StreamlineFileSource.new env fileStem true = .ok s0) :
    s0.haveLabels = true ∧ s0.labels = L ∧ s0.currentStreamline = 0 ∧
    s0.totalStreamlines = s0.source.count ∧ L.length = s0.totalStreamlines := by
  unfold StreamlineFileSource.new at hnew
  cases hsel : StreamlineFileSource.selectSource env fileStem with
  | error e => rw [hsel] at hnew; cases hnew
  | ok a0 =>
    rw [hsel] at hnew
    cases hop : a0.open env with
    | error e => simp only [hop] at hnew; cases hnew
    | ok a1 =>
      simp only [hop, StreamlineFileSource.fileExists, hex, Bool.and_self, if_true] at hnew
      obtain ⟨r1, r2, r3⟩ := (StreamlineFileSource.readLabels_spec env _ _).1 s0 hnew
      rw [hL] at r1
      simp only [Except.ok.injEq] at r1
      rw [r3]
      exact ⟨rfl, r1.symm, rfl, rfl, by rw [r1]; exact r2⟩

/-- C2: on a source freshly constructed with its label sidecar loaded, in a run of
`get` calls with no other call in between, call number `i` (from 0) returns its
streamline with entry `i` of the sidecar's label list as its labels, for every
`i` below the length of the list. -/
theorem StreamlineFileSource.get_assigns_labels {β : Type} (env : SourceEnv β)
    (fileStem : String) (inputs : List Streamline) (L : List LabelSet)
    (s0 s : StreamlineFileSource β) (outs : List Streamline)
    (hex : env.fileExists (fileStem ++ ".trkl") = true)
    (hL : env.labelFile (fileStem ++ ".trkl") = .ok L)
    (hnew : StreamlineFileSource.new env fileStem true = .ok s0)
    (hrun : StreamlineFileSource.getAll env s0 inputs = .ok (s, outs)) :
    s0.labels = L ∧ outs.length = inputs.length ∧
    ∀ i, i < inputs.length → i < L.length →
      (outs.get? i).map Streamline.labels = L.get? i := by
  obtain ⟨n1, n2, n3, _⟩ :=
    StreamlineFileSource.new_loads_labels env fileStem L s0 hex hL hnew
  obtain ⟨g1, _, _, g4⟩ := StreamlineFileSource.getAll_labels env inputs s0 s outs hrun n1
  refine ⟨n2, g1, ?_⟩
  intro i hi hiL
  have := g4 i hi (by rw [n3, n2]; simpa using hiL)
  rw [n3, n2] at this
  simpa using this

/-- Witness for C2: a file of two streamlines with a sidecar of two label sets,
read by two `get` calls. -/
theorem StreamlineFileSource.get_assigns_labels_witness :
    ∃ s0 s outs,
      labelledExampleEnv.fileExists ("a" ++ ".trkl") = true ∧
      labelledExampleEnv.labelFile ("a" ++ ".trkl") = .ok [[1], [2, 3]] ∧
      StreamlineFileSource.new labelledExampleEnv "a" true = .ok s0 ∧
      StreamlineFileSource.getAll labelledExampleEnv s0
        [Streamline.empty, Streamline.empty] = .ok (s, outs) ∧
      (s0.labels = [[1], [2, 3]] ∧
        outs.length = [Streamline.empty, Streamline.empty].length ∧
        ∀ i, i < [Streamline.empty, Streamline.empty].length →
          i < ([[1], [2, 3]] : List LabelSet).length →
          (outs.get? i).map Streamline.labels = ([[1], [2, 3]] : List LabelSet).get? i) := by
  have h : ∃ s0 s outs,
      StreamlineFileSource.new labelledExampleEnv "a" true = .ok s0 ∧
      StreamlineFileSource.getAll labelledExampleEnv s0
        [Streamline.empty, Streamline.empty] = .ok (s, outs) :=
    ⟨_, _, _, rfl, rfl⟩
  obtain ⟨s0, s, outs, h1, h2⟩ := h
  exact ⟨s0, s, outs, by decide, rfl, h1, h2,
    StreamlineFileSource.get_assigns_labels labelledExampleEnv "a" _ _ s0 s outs
      (by decide) rfl h1 h2⟩

/-- A `put` that returns has made one `write` on the adapter and moved the
counter by one. -/
theorem StreamlineFileSink.put_ok {γ : Type} (env : SinkEnv γ)
    (s s1 : StreamlineFileSink γ) (data : Streamline) (h : s.put env data = .ok s1) :
    env.writeImpl s.sink data = .ok s1.sink ∧
    s1.currentStreamline = s.currentStreamline + 1 ∧ s1.fileStem = s.fileStem := by
  unfold StreamlineFileSink.put at h
  cases hw : env.writeImpl s.sink data with
  | error e => rw [hw] at h; cases h
  | ok a =>
    rw [hw] at h
    simp only [pure, Except.pure, Except.ok.injEq] at h
    subst h
    exact ⟨rfl, rfl, rfl⟩

/-- A run of `put` calls that returns has made exactly the `write` calls of the
run on the adapter, one per `put` and in order, and has moved the counter by the
number of calls. -/
theorem StreamlineFileSink.putAll_ok {γ : Type} (env : SinkEnv γ) (ds : List Streamline) :
    ∀ (s sk : StreamlineFileSink γ), StreamlineFileSink.putAll env s ds = .ok sk →
      List.foldlM env.writeImpl s.sink ds = .ok sk.sink ∧
      sk.currentStreamline = s.currentStreamline + ds.length ∧
      sk.fileStem = s.fileStem := by
  induction ds with
  | nil =>
    intro s sk h
    simp only [StreamlineFileSink.putAll, pure, Except.pure, Except.ok.injEq] at h
    subst h
    exact ⟨rfl, rfl, rfl⟩
  | cons d ds ih =>
    intro s sk h
    unfold StreamlineFileSink.putAll at h
    cases hp : s.put env d with
    | error e => rw [hp] at h; cases h
    | ok s1 =>
      rw [hp] at h
      obtain ⟨p1, p2, p3⟩ := StreamlineFileSink.put_ok env s s1 d hp
      obtain ⟨i1, i2, i3⟩ := ih s1 sk h
      refine ⟨?_, by rw [i2, p2]; simp; omega, by rw [i3, p3]⟩
      rw [List.foldlM_cons, p1]
      exact i1

/-- A sink that the constructor returns has its counter at zero, whatever the
append flag. -/
theorem StreamlineFileSink.new_ok {γ : Type} (env : SinkEnv γ) (fileStem : String)
    (writeLabels append : Bool) (s0 : StreamlineFileSink γ)
    (h : StreamlineFileSink.new env fileStem writeLabels append = .ok s0) :
    s0.currentStreamline = 0 ∧ s0.fileStem = fileStem ∧
    env.openImpl (SinkFileAdapter.new env (fileStem ++ ".trk")) append = .ok s0.sink := by
  unfold StreamlineFileSink.new at h
  cases ho : env.openImpl (SinkFileAdapter.new env (fileStem ++ ".trk")) append with
  | error e => rw [ho] at h; cases h
  | ok a =>
    rw [ho] at h
    simp only [pure, Except.pure, Except.ok.injEq] at h
    subst h
    exact ⟨rfl, rfl, rfl⟩

/-- C4: for a sink created on a new file (append = false), a run of `put` calls makes
exactly one `write` on the adapter per `put`, in order; `done()` then sets the
adapter's count to the number of `put` calls made since construction and calls
`close()` on the adapter holding that count. -/
theorem StreamlineFileSink.done_counts_puts {γ : Type} (env : SinkEnv γ)
    (fileStem : String) (writeLabels : Bool) (ds : List Streamline)
    (s0 sk : StreamlineFileSink γ)
    (hnew : StreamlineFileSink.new env fileStem writeLabels false = .ok s0)
    (hput : StreamlineFileSink.putAll env s0 ds = .ok sk) :
    List.foldlM env.writeImpl s0.sink ds = .ok sk.sink ∧
    sk.currentStreamline = ds.length ∧
    sk.doneSetCount.sink.count = ds.length ∧
    sk.done env =
      (match env.closeImpl (sk.sink.setCount ds.length) with
       | .error e => .error e
       | .ok sink =>
         env.writeLabelsImpl { sk.doneSetCount with sink := sink }
           (fileStem ++ ".trkl")) := by
  obtain ⟨n1, n2, _⟩ := StreamlineFileSink.new_ok env fileStem writeLabels false s0 hnew
  obtain ⟨p1, p2, p3⟩ := StreamlineFileSink.putAll_ok env ds s0 sk hput
  have hc : sk.currentStreamline = ds.length := by rw [p2, n1]; simp
  refine ⟨p1, hc, by simp [StreamlineFileSink.doneSetCount, SinkFileAdapter.setCount, hc], ?_⟩
  unfold StreamlineFileSink.done
  simp only [StreamlineFileSink.doneSetCount, hc, p3, n2]

/-- Witness for C4: two streamlines written to a new file; in the example writer
the header then holds 2, the number of records in the file. -/
theorem StreamlineFileSink.done_counts_puts_witness :
    ∃ s0 sk sd,
      StreamlineFileSink.new (exampleSinkEnv []) "out" true false = .ok s0 ∧
      StreamlineFileSink.putAll (exampleSinkEnv []) s0
        [⟨[(0, 0, 0)], 0, []⟩, ⟨[(1, 1, 1)], 0, [4]⟩] = .ok sk ∧
      sk.done (exampleSinkEnv []) = .ok sd ∧
      sd.sink.outputStream.header = 2 ∧ sd.sink.outputStream.records.length = 2 ∧
      sk.doneSetCount.sink.count
        = [(⟨[(0, 0, 0)], 0, []⟩ : Streamline), ⟨[(1, 1, 1)], 0, [4]⟩].length := by
  have h : ∃ s0 sk sd,
      StreamlineFileSink.new (exampleSinkEnv []) "out" true false = .ok s0 ∧
      StreamlineFileSink.putAll (exampleSinkEnv []) s0
        [⟨[(0, 0, 0)], 0, []⟩, ⟨[(1, 1, 1)], 0, [4]⟩] = .ok sk ∧
      sk.done (exampleSinkEnv []) = .ok sd ∧
      sd.sink.outputStream.header = 2 ∧ sd.sink.outputStream.records.length = 2 :=
    ⟨_, _, _, rfl, rfl, rfl, rfl, rfl⟩
  obtain ⟨s0, sk, sd, h1, h2, h3, h4, h5⟩ := h
  exact ⟨s0, sk, sd, h1, h2, h3, h4, h5,
    (StreamlineFileSink.done_counts_puts (exampleSinkEnv []) "out" true _ s0 sk h1 h2).2.2.1⟩

/-- C5 fails as stated: appending one streamline to a file that already holds two,
`done()` hands the adapter the count 1, not 2 + 1; the example writer then stores 1
in the header of a file of three records. -/
theorem StreamlineFileSink.append_count_counterexample :
    ∃ s0 s1 sd,
      StreamlineFileSink.new
        (exampleSinkEnv [⟨[(0, 0, 0)], 0, []⟩, ⟨[(1, 1, 1)], 0, []⟩]) "out" true true
          = .ok s0 ∧
      s0.sink.outputStream.records.length = 2 ∧
      s0.put (exampleSinkEnv [⟨[(0, 0, 0)], 0, []⟩, ⟨[(1, 1, 1)], 0, []⟩])
        ⟨[(2, 2, 2)], 0, []⟩ = .ok s1 ∧
      s1.doneSetCount.sink.count = 1 ∧
      s1.doneSetCount.sink.count ≠ 2 + 1 ∧
      s1.done (exampleSinkEnv [⟨[(0, 0, 0)], 0, []⟩, ⟨[(1, 1, 1)], 0, []⟩]) = .ok sd ∧
      sd.sink.outputStream.header = 1 ∧ sd.sink.outputStream.records.length = 3 :=
  ⟨_, _, _, rfl, rfl, rfl, rfl, by decide, rfl, rfl, rfl⟩

/-- C5 as amended: for a sink opened in append mode, after `k` `put` calls `done()`
hands the adapter the count `k` of `put` calls made since construction, whatever
the file held before, and calls `close()` on the adapter holding that count. -/
theorem StreamlineFileSink.append_done_counts_puts {γ : Type} (env : SinkEnv γ)
    (fileStem : String) (writeLabels : Bool) (ds : List Streamline)
    (s0 sk : StreamlineFileSink γ)
    (hnew : StreamlineFileSink.new env fileStem writeLabels true = .ok s0)
    (hput : StreamlineFileSink.putAll env s0 ds = .ok sk) :
    sk.doneSetCount.sink.count = ds.length ∧
    sk.done env =
      (match env.closeImpl (sk.sink.setCount ds.length) with
       | .error e => .error e
       | .ok sink =>
         env.writeLabelsImpl { sk.doneSetCount with sink := sink }
           (fileStem ++ ".trkl")) := by
  obtain ⟨n1, n2, _⟩ := StreamlineFileSink.new_ok env fileStem writeLabels true s0 hnew
  obtain ⟨_, p2, p3⟩ := StreamlineFileSink.putAll_ok env ds s0 sk hput
  have hc : sk.currentStreamline = ds.length := by rw [p2, n1]; simp
  refine ⟨by simp [StreamlineFileSink.doneSetCount, SinkFileAdapter.setCount, hc], ?_⟩
  unfold StreamlineFileSink.done
  simp only [StreamlineFileSink.doneSetCount, hc, p3, n2]

/-- Witness for the amended C5: one streamline appended to a file of two. -/
theorem StreamlineFileSink.append_done_counts_puts_witness :
    ∃ s0 sk,
      StreamlineFileSink.new
        (exampleSinkEnv [⟨[(0, 0, 0)], 0, []⟩, ⟨[(1, 1, 1)], 0, []⟩]) "out" true true
          = .ok s0 ∧
      StreamlineFileSink.putAll
        (exampleSinkEnv [⟨[(0, 0, 0)], 0, []⟩, ⟨[(1, 1, 1)], 0, []⟩]) s0
        [⟨[(2, 2, 2)], 0, []⟩] = .ok sk ∧
      sk.doneSetCount.sink.count = [(⟨[(2, 2, 2)], 0, []⟩ : Streamline)].length := by
  have h : ∃ s0 sk,
      StreamlineFileSink.new
        (exampleSinkEnv [⟨[(0, 0, 0)], 0, []⟩, ⟨[(1, 1, 1)], 0, []⟩]) "out" true true
          = .ok s0 ∧
      StreamlineFileSink.putAll
        (exampleSinkEnv [⟨[(0, 0, 0)], 0, []⟩, ⟨[(1, 1, 1)], 0, []⟩]) s0
        [⟨[(2, 2, 2)], 0, []⟩] = .ok sk :=
    ⟨_, _, rfl, rfl⟩
  obtain ⟨s0, sk, h1, h2⟩ := h
  exact ⟨s0, sk, h1, h2,
    (StreamlineFileSink.append_done_counts_puts
      (exampleSinkEnv [⟨[(0, 0, 0)], 0, []⟩, ⟨[(1, 1, 1)], 0, []⟩]) "out" true _ s0 sk
      h1 h2).1⟩

/-- C6 fails as stated: the three-argument constructor accepts the zero matrix and
yields an image space that holds it, a transform that is not invertible. -/
theorem ImageSpace.ofTransform_counterexample :
    ∃ s : ImageSpace ℚ,
      ImageSpace.ofTransform ![2, 2, 2] ![1, 1, 1] (0 : Matrix (Fin 4) (Fin 4) ℚ) = .ok s ∧
      s.transform = 0 ∧ ¬ s.invertible :=
  ⟨_, rfl, rfl, by simp [ImageSpace.invertible]⟩

/-- C6 as amended: the three-argument constructor never fails and stores dimension,
voxel size and transform as given, whether or not the transform is invertible. -/
theorem ImageSpace.ofTransform_stores {α : Type} (dim : Fin 3 → Int) (pixdim : Fin 3 → α)
    (transform : Matrix (Fin 4) (Fin 4) α) :
    ∃ s, ImageSpace.ofTransform dim pixdim transform = .ok s ∧
      s.dim = dim ∧ s.pixdim = pixdim ∧ s.transform = transform :=
  ⟨_, rfl, rfl, rfl, rfl⟩

/-- C7: the constructor from dimensions and voxel sizes alone stores both unchanged
and holds the transform with diagonal `(pixdim[0], pixdim[1], pixdim[2], 1)` and
every off-diagonal entry 0. -/
theorem ImageSpace.ofPixdim_diagonal {α : Type} [Zero α] [One α] (dim : Fin 3 → Int)
    (pixdim : Fin 3 → α) :
    (ImageSpace.ofPixdim dim pixdim).dim = dim ∧
    (ImageSpace.ofPixdim dim pixdim).pixdim = pixdim ∧
    (ImageSpace.ofPixdim dim pixdim).transform 0 0 = pixdim 0 ∧
    (ImageSpace.ofPixdim dim pixdim).transform 1 1 = pixdim 1 ∧
    (ImageSpace.ofPixdim dim pixdim).transform 2 2 = pixdim 2 ∧
    (ImageSpace.ofPixdim dim pixdim).transform 3 3 = 1 ∧
    ∀ i j : Fin 4, i ≠ j → (ImageSpace.ofPixdim dim pixdim).transform i j = 0 := by
  refine ⟨rfl, rfl, rfl, rfl, rfl, rfl, ?_⟩
  intro i j hij
  fin_cases i <;> fin_cases j <;> first | exact absurd rfl hij | rfl

/-- C8 fails as stated: with an infinite radius, polar angle 0 and azimuth 0 the
first two components are NaN, not 0. -/
theorem ImageSpace.sphericalToCartesian_counterexample :
    ImageSpace.sphericalToCartesian (Fp.mul exampleFpEnv) (Fp.sin exampleFpEnv)
        (Fp.cos exampleFpEnv) ![Fp.infinite false, Fp.finite 0, Fp.finite 0]
      = ![Fp.nan, Fp.nan, Fp.infinite false] ∧
    ImageSpace.sphericalToCartesian (Fp.mul exampleFpEnv) (Fp.sin exampleFpEnv)
        (Fp.cos exampleFpEnv) ![Fp.infinite false, Fp.finite 0, Fp.finite 0] 0
      ≠ Fp.finite 0 := by
  have h : ImageSpace.sphericalToCartesian (Fp.mul exampleFpEnv) (Fp.sin exampleFpEnv)
        (Fp.cos exampleFpEnv) ![Fp.infinite false, Fp.finite 0, Fp.finite 0]
      = ![Fp.nan, Fp.nan, Fp.infinite false] := by
    funext i
    fin_cases i <;>
      simp [ImageSpace.sphericalToCartesian, Fp.mul, Fp.sin, Fp.cos, exampleFpEnv]
  refine ⟨h, ?_⟩
  rw [h]
  simp

/-- C8 as amended: `sphericalToCartesian` reads its argument as (radius, polar angle,
azimuth) and returns `(r sin θ cos φ, r sin θ sin φ, r cos θ)` in double arithmetic,
products taken from left to right, for every input; with the library sine and
cosine exact at 0 and a radius that is a double, polar angle 0 gives `(0, 0, r)` for
every finite radius and finite azimuth, while an infinite radius gives NaN in the
first two components. -/
theorem ImageSpace.sphericalToCartesian_double (env : FpEnv) (r φ : ℚ)
    (hsin : env.sin 0 = 0) (hcos : env.cos 0 = 1) (hzero : env.round 0 = Fp.finite 0)
    (hr : env.round r = Fp.finite r) :
    (∀ v : Fin 3 → Fp,
      ImageSpace.sphericalToCartesian (Fp.mul env) (Fp.sin env) (Fp.cos env) v 0
        = Fp.mul env (Fp.mul env (v 0) (Fp.sin env (v 1))) (Fp.cos env (v 2)) ∧
      ImageSpace.sphericalToCartesian (Fp.mul env) (Fp.sin env) (Fp.cos env) v 1
        = Fp.mul env (Fp.mul env (v 0) (Fp.sin env (v 1))) (Fp.sin env (v 2)) ∧
      ImageSpace.sphericalToCartesian (Fp.mul env) (Fp.sin env) (Fp.cos env) v 2
        = Fp.mul env (v 0) (Fp.cos env (v 1))) ∧
    ImageSpace.sphericalToCartesian (Fp.mul env) (Fp.sin env) (Fp.cos env)
        ![Fp.finite r, Fp.finite 0, Fp.finite φ]
      = ![Fp.finite 0, Fp.finite 0, Fp.finite r] ∧
    (∀ (negative : Bool) (az : Fp),
      ImageSpace.sphericalToCartesian (Fp.mul env) (Fp.sin env) (Fp.cos env)
          ![Fp.infinite negative, Fp.finite 0, az] 0 = Fp.nan ∧
      ImageSpace.sphericalToCartesian (Fp.mul env) (Fp.sin env) (Fp.cos env)
          ![Fp.infinite negative, Fp.finite 0, az] 1 = Fp.nan) := by
  refine ⟨fun v => ⟨rfl, rfl, rfl⟩, ?_, ?_⟩
  · funext i
    fin_cases i <;>
      simp [ImageSpace.sphericalToCartesian, Fp.mul, Fp.sin, Fp.cos, hsin, hcos, hzero, hr]
  · intro negative az
    have hn : Fp.mul env (Fp.infinite negative) (Fp.sin env (Fp.finite 0)) = Fp.nan := by
      simp [Fp.mul, Fp.sin, hsin]
    constructor
    · show Fp.mul env (Fp.mul env (Fp.infinite negative) (Fp.sin env (Fp.finite 0)))
        (Fp.cos env az) = Fp.nan
      rw [hn]
      simp [Fp.mul]
    · show Fp.mul env (Fp.mul env (Fp.infinite negative) (Fp.sin env (Fp.finite 0)))
        (Fp.sin env az) = Fp.nan
      rw [hn]
      simp [Fp.mul]

/-- Witness for the amended C8: exact products and Taylor sine and cosine, radius
2 and azimuth 1. -/
theorem ImageSpace.sphericalToCartesian_double_witness :
    exampleFpEnv.sin 0 = 0 ∧ exampleFpEnv.cos 0 = 1 ∧
    exampleFpEnv.round 0 = Fp.finite 0 ∧ exampleFpEnv.round 2 = Fp.finite 2 ∧
    ImageSpace.sphericalToCartesian (Fp.mul exampleFpEnv) (Fp.sin exampleFpEnv)
        (Fp.cos exampleFpEnv) ![Fp.finite 2, Fp.finite 0, Fp.finite 1]
      = ![Fp.finite 0, Fp.finite 0, Fp.finite 2] := by
  have hsin : exampleFpEnv.sin 0 = 0 := by simp [exampleFpEnv]
  have hcos : exampleFpEnv.cos 0 = 1 := by simp [exampleFpEnv]
  exact ⟨hsin, hcos, rfl, rfl,
    (ImageSpace.sphericalToCartesian_double exampleFpEnv 2 1 hsin hcos rfl rfl).2.1⟩

/-- C9: `seek(offset)` repositions the input stream with `seekg(offset)`; it raises an
error if and only if the stream is not good afterwards, and the message then names
the offset; when the stream is good afterwards it returns normally with the
repositioned stream, which is the case whenever the stream had no failure flag
and its buffer satisfies the seek. -/
theorem SourceFileAdapter.seek_spec {β : Type} (env : SourceEnv β)
    (a : SourceFileAdapter β) (offset : Nat) :
    ((∃ e, a.seek env offset = .error e) ↔
      (a.inputStream.seekg env.pubseekpos offset).good = false) ∧
    ((a.inputStream.seekg env.pubseekpos offset).good = false →
      a.seek env offset = .error ("Failed to seek to offset " ++ toString offset)) ∧
    ((a.inputStream.seekg env.pubseekpos offset).good = true →
      a.seek env offset
        = .ok { a with inputStream := a.inputStream.seekg env.pubseekpos offset }) ∧
    (∀ b, a.inputStream.failbit = false → a.inputStream.badbit = false →
      env.pubseekpos a.inputStream.buf offset = some b →
      a.seek env offset
        = .ok { a with inputStream :=
                  { buf := b, eofbit := false, failbit := false, badbit := false } }) := by
  have hbad : (a.inputStream.seekg env.pubseekpos offset).good = false →
      a.seek env offset = .error ("Failed to seek to offset " ++ toString offset) := by
    intro h
    simp [SourceFileAdapter.seek, h, throw, throwThe, MonadExceptOf.throw]
  have hgood : (a.inputStream.seekg env.pubseekpos offset).good = true →
      a.seek env offset
        = .ok { a with inputStream := a.inputStream.seekg env.pubseekpos offset } := by
    intro h
    simp [SourceFileAdapter.seek, h, pure, Except.pure]
  refine ⟨⟨?_, fun h => ⟨_, hbad h⟩⟩, hbad, hgood, ?_⟩
  · rintro ⟨e, he⟩
    by_contra hg
    have hg1 : (a.inputStream.seekg env.pubseekpos offset).good = true := by simpa using hg
    rw [hgood hg1] at he
    cases he
  · intro b hf hb hp
    have hs : a.inputStream.seekg env.pubseekpos offset
        = { buf := b, eofbit := false, failbit := false, badbit := false } := by
      simp [IStream.seekg, IStream.good, hf, hb, hp]
    have hg : (a.inputStream.seekg env.pubseekpos offset).good = true := by
      rw [hs]; rfl
    rw [hgood hg, hs]

/-- The virtual `read` inherits from the reader's body that the adapter it leaves
behind does not depend on the streamline object passed in. -/
theorem SourceFileAdapter.read_independent {β : Type} (env : SourceEnv β)
    (hind : ∀ a d1 d2, (env.readImpl a d1).map Prod.fst = (env.readImpl a d2).map Prod.fst)
    (a : SourceFileAdapter β) (d1 d2 : Streamline) :
    (a.read env d1).map Prod.fst = (a.read env d2).map Prod.fst := by
  have h := hind a d1 d2
  unfold SourceFileAdapter.read
  cases h1 : env.readImpl a d1 with
  | error e1 =>
    cases h2 : env.readImpl a d2 with
    | error e2 => rw [h1, h2] at h; simpa [Except.map] using h
    | ok r2 => rw [h1, h2] at h; simp [Except.map] at h
  | ok r1 =>
    cases h2 : env.readImpl a d2 with
    | error e2 => rw [h1, h2] at h; simp [Except.map] at h
    | ok r2 =>
      rw [h1, h2] at h
      simp only [Except.map, Except.ok.injEq] at h
      simp [Except.map, h]

/-- The loop of `skip`, entered at counter `i` with `k` iterations left, leaves the
adapter that `k` discarded reads leave. -/
theorem SourceFileAdapter.skipLoop_eq {β : Type} (env : SourceEnv β)
    (hind : ∀ a d1 d2, (env.readImpl a d1).map Prod.fst = (env.readImpl a d2).map Prod.fst)
    (k : Nat) :
    ∀ (n i : Nat) (a : SourceFileAdapter β) (ignored : Streamline), n - i = k →
      (SourceFileAdapter.skipLoop env n i a ignored).map Prod.fst
        = SourceFileAdapter.readAndDiscard env k a := by
  induction k with
  | zero =>
    intro n i a ignored h
    have hlt : ¬ i < n := by omega
    rw [SourceFileAdapter.skipLoop]
    simp [hlt, SourceFileAdapter.readAndDiscard, Except.map, pure, Except.pure]
  | succ k ih =>
    intro n i a ignored h
    have hlt : i < n := by omega
    rw [SourceFileAdapter.skipLoop]
    simp only [hlt, if_true, SourceFileAdapter.readAndDiscard]
    have hr := SourceFileAdapter.read_independent env hind a ignored Streamline.empty
    cases h1 : a.read env ignored with
    | error e1 =>
      cases h2 : a.read env Streamline.empty with
      | error e2 => rw [h1, h2] at hr; simpa [Except.map] using hr
      | ok r2 => rw [h1, h2] at hr; simp [Except.map] at hr
    | ok r1 =>
      cases h2 : a.read env Streamline.empty with
      | error e2 => rw [h1, h2] at hr; simp [Except.map] at hr
      | ok r2 =>
        rw [h1, h2] at hr
        simp only [Except.map, Except.ok.injEq] at hr
        simp only
        rw [ih n (i + 1) r1.1 r1.2 (by omega), hr]

/-- Discarded reads compose: `m` of them followed by `k` of them are `m + k`. -/
theorem SourceFileAdapter.readAndDiscard_add {β : Type} (env : SourceEnv β) (m k : Nat) :
    ∀ a : SourceFileAdapter β,
      (SourceFileAdapter.readAndDiscard env m a).bind
          (SourceFileAdapter.readAndDiscard env k)
        = SourceFileAdapter.readAndDiscard env (m + k) a := by
  induction m with
  | zero =>
    intro a
    simp [SourceFileAdapter.readAndDiscard, Except.bind, pure, Except.pure]
  | succ m ih =>
    intro a
    have : m + 1 + k = (m + k) + 1 := by omega
    rw [this]
    simp only [SourceFileAdapter.readAndDiscard]
    cases h : a.read env Streamline.empty with
    | error e => simp [Except.bind]
    | ok r => simpa using ih r.1

/-- C10: for a reader whose `read` leaves an adapter that does not depend on the
streamline object passed in, the default `skip(n)` is `n` consecutive reads whose
results are discarded; `skip(0)` performs none and leaves the adapter unchanged;
`skip(m)` followed by `skip(k)` leaves the adapter that `skip(m + k)` leaves. -/
theorem SourceFileAdapter.skip_refines {β : Type} (env : SourceEnv β)
    (hind : ∀ a d1 d2, (env.readImpl a d1).map Prod.fst = (env.readImpl a d2).map Prod.fst)
    (a : SourceFileAdapter β) (n m k : Nat) :
    a.skip env n = SourceFileAdapter.readAndDiscard env n a ∧
    a.skip env 0 = .ok a ∧
    (a.skip env m).bind (fun a1 => a1.skip env k) = a.skip env (m + k) := by
  have hskip : ∀ (x : SourceFileAdapter β) (j : Nat),
      x.skip env j = SourceFileAdapter.readAndDiscard env j x := by
    intro x j
    unfold SourceFileAdapter.skip
    exact SourceFileAdapter.skipLoop_eq env hind j j 0 x Streamline.empty (by omega)
  refine ⟨hskip a n, ?_, ?_⟩
  · rw [hskip]; rfl
  · rw [hskip a m, hskip a (m + k), ← SourceFileAdapter.readAndDiscard_add env m k a]
    congr 1
    funext a1
    exact hskip a1 k

/-- Witness for C10: the example reader on a file of two streamlines; skipping one
and then one more leaves the adapter of skipping two. -/
theorem SourceFileAdapter.skip_refines_witness :
    (∀ a d1 d2, (labelledExampleEnv.readImpl a d1).map Prod.fst
      = (labelledExampleEnv.readImpl a d2).map Prod.fst) ∧
    ((SourceFileAdapter.new labelledExampleEnv Format.trackvis "a.trk").skip
        labelledExampleEnv 2
      = SourceFileAdapter.readAndDiscard labelledExampleEnv 2
          (SourceFileAdapter.new labelledExampleEnv Format.trackvis "a.trk") ∧
    (SourceFileAdapter.new labelledExampleEnv Format.trackvis "a.trk").skip
        labelledExampleEnv 0
      = .ok (SourceFileAdapter.new labelledExampleEnv Format.trackvis "a.trk") ∧
    ((SourceFileAdapter.new labelledExampleEnv Format.trackvis "a.trk").skip
        labelledExampleEnv 1).bind (fun a1 => a1.skip labelledExampleEnv 1)
      = (SourceFileAdapter.new labelledExampleEnv Format.trackvis "a.trk").skip
          labelledExampleEnv (1 + 1)) :=
  ⟨fun _ _ _ => rfl,
    SourceFileAdapter.skip_refines labelledExampleEnv (fun _ _ _ => rfl)
      (SourceFileAdapter.new labelledExampleEnv Format.trackvis "a.trk") 2 1 1⟩

/-- Wrapping multiplication of a reduced product by one more factor. -/
theorem mulSize_mod (a b : Nat) : mulSize (a % sizeMod) b = (a * b) % sizeMod := by
  unfold mulSize
  rw [Nat.mod_mul_mod]

/-- Reading an array after one entry was written. -/
theorem getD_set_eq (l : List Nat) (i j v : Nat) (hi : i < l.length) :
    (l.set i v).getD j 0 = if j = i then v else l.getD j 0 := by
  by_cases h : j = i
  · subst h
    simp [List.getD_eq_getElem?_getD, List.getElem?_set, hi]
  · have h2 : ¬ i = j := fun e => h e.symm
    simp [List.getD_eq_getElem?_getD, List.getElem?_set, h, h2]

/-- The product of the first `i + 1` dimensions. -/
theorem prod_take_step (dims : List Nat) (i : Nat) (hi : i < dims.length) :
    (dims.take (i + 1)).prod = (dims.take i).prod * dims.getD i 0 := by
  rw [List.prod_take_succ dims i hi]
  simp [List.getD_eq_getElem?_getD, List.getElem?_eq_getElem hi]

/-- Invariant of the loop of `calculateStrides`: entered at counter `i` with the
strides below `i` and `size_` holding wrapped products of leading dimensions, it
ends with every stride and `size_` holding such products. -/
theorem Image.stridesLoop_spec (D : Nat) (dims : List Nat) (hlen : dims.length = D)
    (k : Nat) :
    ∀ (i : Nat) (strides : List Nat) (size_ : Nat), D - i = k → 1 ≤ i → i ≤ D →
      strides.length = D →
      (∀ j, j < i → strides.getD j 0 = (dims.take j).prod % sizeMod) →
      size_ = (dims.take (i - 1)).prod % sizeMod →
      (Image.stridesLoop D dims i strides size_).1.length = D ∧
      (∀ j, j < D →
        (Image.stridesLoop D dims i strides size_).1.getD j 0
          = (dims.take j).prod % sizeMod) ∧
      (Image.stridesLoop D dims i strides size_).2
        = (dims.take (D - 1)).prod % sizeMod := by
  induction k with
  | zero =>
    intro i strides size_ hk h1 hle hl hs hz
    have hi : i = D := by omega
    subst hi
    rw [Image.stridesLoop]
    simp only [lt_irrefl, if_false]
    exact ⟨hl, hs, hz⟩
  | succ k ih =>
    intro i strides size_ hk h1 hle hl hs hz
    have hlt : i < D := by omega
    obtain ⟨m, rfl⟩ : ∃ m, i = m + 1 := ⟨i - 1, by omega⟩
    rw [Image.stridesLoop]
    simp only [hlt, if_true, Nat.add_sub_cancel]
    have hstep : (dims.take (m + 1)).prod = (dims.take m).prod * dims.getD m 0 :=
      prod_take_step dims m (by omega)
    apply ih (m + 1 + 1) _ _ (by omega) (by omega) (by omega)
    · simp [hl]
    · intro j hj
      rw [getD_set_eq _ _ _ _ (by omega)]
      by_cases hjm : j = m + 1
      · subst hjm
        simp only [if_true]
        rw [hs m (by omega), mulSize_mod, hstep]
      · simp only [hjm, if_false]
        exact hs j (by omega)
    · simp only [Nat.add_sub_cancel] at hz ⊢
      rw [hz, mulSize_mod, hstep]

/-- What `calculateStrides` leaves: every stride is the wrapped product of the
dimensions before it and `size_` the wrapped product of all dimensions. -/
theorem Image.calculateStrides_spec (D : Nat) (dims : List Nat) (hD : 0 < D)
    (hlen : dims.length = D) :
    (Image.calculateStrides D dims (List.replicate D 0)).1.length = D ∧
    (∀ j, j < D →
      (Image.calculateStrides D dims (List.replicate D 0)).1.getD j 0
        = (dims.take j).prod % sizeMod) ∧
    (Image.calculateStrides D dims (List.replicate D 0)).2 = dims.prod % sizeMod := by
  have h := Image.stridesLoop_spec D dims hlen (D - 1) 1
    ((List.replicate D 0).set 0 1) 1 rfl (le_refl 1) hD (by simp)
    (by
      intro j hj
      have hj0 : j = 0 := by omega
      subst hj0
      rw [getD_set_eq _ _ _ _ (by simpa using hD)]
      simp [sizeMod])
    (by simp [sizeMod])
  obtain ⟨h1, h2, h3⟩ := h
  refine ⟨h1, h2, ?_⟩
  unfold Image.calculateStrides
  simp only
  rw [h3, mulSize_mod]
  have := prod_take_step dims (D - 1) (by omega)
  rw [show D - 1 + 1 = D by omega] at this
  rw [← this, ← hlen, List.take_length]

/-- The recursion of `Indexer<N>::flatten` adds up, with wrap-around, the products
of index components and strides, once the first stride is 1. -/
theorem Indexer.flatten_sum (loc strides : List Nat) (h0 : strides.getD 0 0 = 1)
    (hl : loc.getD 0 0 < sizeMod) (n : Nat) :
    Indexer.flatten (n + 1) loc strides
      = (∑ i ∈ Finset.range (n + 1), loc.getD i 0 * strides.getD i 0) % sizeMod := by
  induction n with
  | zero =>
    simp only [Nat.zero_add, Indexer.flatten, Finset.sum_range_one, h0, Nat.mul_one]
    exact (Nat.mod_eq_of_lt hl).symm
  | succ n ih =>
    rw [Indexer.flatten, ih, Finset.sum_range_succ _ (n + 1)]
    unfold addSize mulSize
    rw [Nat.add_mod_mod, Nat.mod_add_mod, Nat.add_comm, Nat.mul_comm]

/-- The sum of index components times products of leading dimensions is the
mixed-radix value of the index. -/
theorem Image.sum_eq_radix (dims : List Nat) :
    ∀ loc : List Nat, loc.length = dims.length →
      ∑ i ∈ Finset.range dims.length, loc.getD i 0 * (dims.take i).prod
        = Image.radix dims loc := by
  induction dims with
  | nil =>
    intro loc _
    simp [Image.radix]
  | cons d ds ih =>
    intro loc hl
    cases loc with
    | nil => simp at hl
    | cons l ls =>
      have hls : ls.length = ds.length := by simpa using hl
      simp only [List.length_cons, Image.radix]
      rw [Finset.sum_range_succ', ← ih ls hls, Finset.mul_sum]
      simp only [List.getD_cons_succ, List.take_succ_cons, List.prod_cons, List.getD_cons_zero,
        List.take_zero, List.prod_nil, Nat.mul_one]
      rw [Nat.add_comm]
      congr 1
      apply Finset.sum_congr rfl
      intro i _
      ring

/-- In-range indices over a non-empty dimension list, componentwise. -/
theorem Image.inRange_cons (d l : Nat) (ds ls : List Nat) :
    Image.inRange (d :: ds) (l :: ls) ↔ l < d ∧ Image.inRange ds ls := by
  unfold Image.inRange
  constructor
  · rintro ⟨h1, h2⟩
    refine ⟨by simpa using h2 0 (by simp), by simpa using h1, ?_⟩
    intro i hi
    simpa using h2 (i + 1) (by simpa using hi)
  · rintro ⟨h0, h1, h2⟩
    refine ⟨by simpa using h1, ?_⟩
    intro i hi
    cases i with
    | zero => simpa using h0
    | succ j => simpa using h2 j (by simpa using hi)

/-- The mixed-radix value of an in-range index is below the product of the
dimensions. -/
theorem Image.radix_lt (dims : List Nat) :
    ∀ loc : List Nat, Image.inRange dims loc → Image.radix dims loc < dims.prod := by
  induction dims with
  | nil =>
    intro loc _
    cases loc <;> simp [Image.radix]
  | cons d ds ih =>
    intro loc h
    cases loc with
    | nil => exact absurd h.1 (by simp)
    | cons l ls =>
      obtain ⟨hl, hr⟩ := (Image.inRange_cons d l ds ls).1 h
      have := ih ls hr
      simp only [Image.radix, List.prod_cons]
      calc l + d * Image.radix ds ls < d + d * Image.radix ds ls := by omega
        _ = d * (Image.radix ds ls + 1) := by ring
        _ ≤ d * ds.prod := Nat.mul_le_mul_left d this

/-- Two in-range indices with the same mixed-radix value are the same index. -/
theorem Image.radix_injective (dims : List Nat) :
    ∀ loc1 loc2 : List Nat, Image.inRange dims loc1 → Image.inRange dims loc2 →
      Image.radix dims loc1 = Image.radix dims loc2 → loc1 = loc2 := by
  induction dims with
  | nil =>
    intro loc1 loc2 h1 h2 _
    have e1 : loc1 = [] := List.length_eq_zero.1 (by simpa using h1.1)
    have e2 : loc2 = [] := List.length_eq_zero.1 (by simpa using h2.1)
    rw [e1, e2]
  | cons d ds ih =>
    intro loc1 loc2 h1 h2 he
    cases loc1 with
    | nil => exact absurd h1.1 (by simp)
    | cons l1 ls1 =>
      cases loc2 with
      | nil => exact absurd h2.1 (by simp)
      | cons l2 ls2 =>
        obtain ⟨a1, b1⟩ := (Image.inRange_cons d l1 ds ls1).1 h1
        obtain ⟨a2, b2⟩ := (Image.inRange_cons d l2 ds ls2).1 h2
        simp only [Image.radix] at he
        have hm : (l1 + d * Image.radix ds ls1) % d = (l2 + d * Image.radix ds ls2) % d := by
          rw [he]
        rw [Nat.add_mul_mod_self_left, Nat.add_mul_mod_self_left, Nat.mod_eq_of_lt a1,
          Nat.mod_eq_of_lt a2] at hm
        subst hm
        have hd : 0 < d := by omega
        have hr : Image.radix ds ls1 = Image.radix ds ls2 := by
          have : d * Image.radix ds ls1 = d * Image.radix ds ls2 := by omega
          exact Nat.eq_of_mul_eq_mul_left hd this
        rw [ih ls1 ls2 b1 b2 hr]

/-- Every value below the product of the dimensions is the mixed-radix value of
an in-range index. -/
theorem Image.radix_surjective (dims : List Nat) :
    ∀ k, k < dims.prod → ∃ loc, Image.inRange dims loc ∧ Image.radix dims loc = k := by
  induction dims with
  | nil =>
    intro k hk
    refine ⟨[], ⟨rfl, fun i hi => absurd hi (by simp)⟩, ?_⟩
    simp at hk
    simp [Image.radix, hk]
  | cons d ds ih =>
    intro k hk
    simp only [List.prod_cons] at hk
    have hd : 0 < d := by
      rcases Nat.eq_zero_or_pos d with h | h
      · subst h; simp at hk
      · exact h
    have hq : k / d < ds.prod := by
      rw [Nat.div_lt_iff_lt_mul hd]
      rwa [Nat.mul_comm] at hk
    obtain ⟨ls, hls, hrs⟩ := ih (k / d) hq
    refine ⟨(k % d) :: ls, (Image.inRange_cons d (k % d) ds ls).2 ⟨Nat.mod_lt k hd, hls⟩, ?_⟩
    simp only [Image.radix, hrs]
    exact Nat.mod_add_div k d

/-- With positive dimensions, no product of leading dimensions exceeds the
product of all of them. -/
theorem Image.prod_take_le (dims : List Nat) (hpos : ∀ d ∈ dims, 0 < d) (i : Nat) :
    (dims.take i).prod ≤ dims.prod := by
  have h := List.prod_take_mul_prod_drop dims i
  have hdrop : 0 < (dims.drop i).prod := by
    apply List.prod_pos
    intro d hd
    exact hpos d (List.mem_of_mem_drop hd)
  calc (dims.take i).prod = (dims.take i).prod * 1 := by ring
    _ ≤ (dims.take i).prod * (dims.drop i).prod := Nat.mul_le_mul_left _ hdrop
    _ = dims.prod := h

/-- The strides, `size_` and data length of an image constructed from
dimensions. -/
theorem Image.ofDims_spec {ε : Type} (D : Nat) (dims : List Nat) (value : ε) (hD : 0 < D)
    (hlen : dims.length = D) :
    (∀ j, j < D → (Image.ofDims D dims value).strides.getD j 0
      = (dims.take j).prod % sizeMod) ∧
    (Image.ofDims D dims value).size_ = dims.prod % sizeMod ∧
    (Image.ofDims D dims value).size = dims.prod % sizeMod := by
  obtain ⟨_, h2, h3⟩ := Image.calculateStrides_spec D dims hD hlen
  refine ⟨h2, h3, ?_⟩
  simp only [Image.size, Image.ofDims, List.length_replicate]
  exact h3

/-- With positive dimensions whose product fits `size_t`, the offset of an
in-range index is its mixed-radix value. -/
theorem Image.flattenIndex_eq_radix {ε : Type} (D : Nat) (dims : List Nat) (value : ε)
    (hD : 0 < D) (hlen : dims.length = D) (hpos : ∀ d ∈ dims, 0 < d)
    (hfit : dims.prod < sizeMod) (loc : List Nat) (hin : Image.inRange dims loc) :
    (Image.ofDims D dims value).flattenIndex loc = Image.radix dims loc := by
  obtain ⟨h1, _, _⟩ := Image.ofDims_spec D dims value hD hlen
  have hexact : ∀ j, j < D →
      (Image.ofDims D dims value).strides.getD j 0 = (dims.take j).prod := by
    intro j hj
    rw [h1 j hj]
    exact Nat.mod_eq_of_lt (lt_of_le_of_lt (Image.prod_take_le dims hpos j) hfit)
  have hr := Image.radix_lt dims loc hin
  have hsum := Image.sum_eq_radix dims loc hin.1
  rw [hlen] at hsum
  have hloc0 : loc.getD 0 0 < sizeMod := by
    have h0 : loc.getD 0 0 * (dims.take 0).prod
        ≤ ∑ i ∈ Finset.range D, loc.getD i 0 * (dims.take i).prod :=
      Finset.single_le_sum (f := fun i => loc.getD i 0 * (dims.take i).prod)
        (fun _ _ => Nat.zero_le _) (Finset.mem_range.2 hD)
    simp only [List.take_zero, List.prod_nil, Nat.mul_one] at h0
    omega
  obtain ⟨n, rfl⟩ : ∃ n, D = n + 1 := ⟨D - 1, by omega⟩
  unfold Image.flattenIndex
  rw [Indexer.flatten_sum loc _ (by rw [hexact 0 hD]; simp) hloc0 n]
  rw [Finset.sum_congr rfl (fun i hi => by rw [hexact i (Finset.mem_range.1 hi)]), hsum]
  exact Nat.mod_eq_of_lt (lt_trans hr hfit)

/-- C11 fails as stated: for the two-dimensional image of dimensions
`(2^32, 2^32)` the size is 0, not the product `2^64` of the dimensions. -/
theorem Image.layout_counterexample :
    (Image.ofDims 2 [2 ^ 32, 2 ^ 32] (0 : Nat)).size_ = 0 ∧
    ([2 ^ 32, 2 ^ 32] : List Nat).prod = 2 ^ 64 ∧
    (Image.ofDims 2 [2 ^ 32, 2 ^ 32] (0 : Nat)).size_ ≠ ([2 ^ 32, 2 ^ 32] : List Nat).prod := by
  obtain ⟨_, h, _⟩ := Image.ofDims_spec 2 [2 ^ 32, 2 ^ 32] (0 : Nat) (by decide) rfl
  have hp : ([2 ^ 32, 2 ^ 32] : List Nat).prod = 2 ^ 64 := by norm_num
  have hs : (Image.ofDims 2 [2 ^ 32, 2 ^ 32] (0 : Nat)).size_ = 0 := by
    rw [h, hp]
    simp [sizeMod]
  refine ⟨hs, hp, ?_⟩
  rw [hs, hp]
  norm_num

/-- C11 as amended: after construction from dims the first stride is 1, stride `i` is
the product of the dimensions before axis `i`, the size is the product of all
dimensions and the offset of an index is the sum over the axes of component times
stride, all in `size_t` arithmetic, that is modulo `2^64`; strides and size are the
exact products when no product of leading dimensions reaches `2^64`. -/
theorem Image.layout_wrapping {ε : Type} (D : Nat) (dims : List Nat) (value : ε)
    (hD : 0 < D) (hlen : dims.length = D) :
    (Image.ofDims D dims value).strides.getD 0 0 = 1 ∧
    (∀ i, 1 ≤ i → i < D →
      (Image.ofDims D dims value).strides.getD i 0 = (dims.take i).prod % sizeMod) ∧
    (Image.ofDims D dims value).size_ = dims.prod % sizeMod ∧
    (Image.ofDims D dims value).size = (Image.ofDims D dims value).size_ ∧
    (∀ loc : List Nat, loc.getD 0 0 < sizeMod →
      (Image.ofDims D dims value).flattenIndex loc
        = (∑ i ∈ Finset.range D,
            loc.getD i 0 * (Image.ofDims D dims value).strides.getD i 0) % sizeMod) ∧
    ((∀ i, i ≤ D → (dims.take i).prod < sizeMod) →
      (∀ i, i < D → (Image.ofDims D dims value).strides.getD i 0 = (dims.take i).prod) ∧
      (Image.ofDims D dims value).size_ = dims.prod) := by
  obtain ⟨h1, h2, h3⟩ := Image.ofDims_spec D dims value hD hlen
  have h0 : (Image.ofDims D dims value).strides.getD 0 0 = 1 := by
    rw [h1 0 hD]
    simp [sizeMod]
  refine ⟨h0, fun i _ hi => h1 i hi, h2, by rw [h3, h2], ?_, ?_⟩
  · intro loc hloc
    obtain ⟨n, rfl⟩ : ∃ n, D = n + 1 := ⟨D - 1, by omega⟩
    unfold Image.flattenIndex
    exact Indexer.flatten_sum loc _ h0 hloc n
  · intro hfit
    refine ⟨fun i hi => ?_, ?_⟩
    · rw [h1 i hi]
      exact Nat.mod_eq_of_lt (hfit i (by omega))
    · rw [h2]
      have := hfit D (le_refl D)
      rw [← hlen, List.take_length] at this
      exact Nat.mod_eq_of_lt this

/-- Witness for the amended C11: the image of dimensions `(2, 3, 4)`. -/
theorem Image.layout_wrapping_witness :
    0 < 3 ∧ ([2, 3, 4] : List Nat).length = 3 ∧
    (Image.ofDims 3 [2, 3, 4] (0 : Nat)).strides.getD 0 0 = 1 ∧
    (Image.ofDims 3 [2, 3, 4] (0 : Nat)).size_ = ([2, 3, 4] : List Nat).prod % sizeMod :=
  ⟨by decide, rfl,
    (Image.layout_wrapping 3 [2, 3, 4] (0 : Nat) (by decide) rfl).1,
    (Image.layout_wrapping 3 [2, 3, 4] (0 : Nat) (by decide) rfl).2.2.1⟩

/-- C12 fails as stated: the two-dimensional image of dimensions `(2^32, 2^32)` has
positive dimensions and no data, so the in-range index `(0, 0)` maps to offset 0,
which is not below the data size 0. -/
theorem Image.flatten_range_counterexample :
    (∀ d ∈ ([2 ^ 32, 2 ^ 32] : List Nat), 0 < d) ∧
    Image.inRange [2 ^ 32, 2 ^ 32] [0, 0] ∧
    (Image.ofDims 2 [2 ^ 32, 2 ^ 32] (0 : Nat)).flattenIndex [0, 0] = 0 ∧
    (Image.ofDims 2 [2 ^ 32, 2 ^ 32] (0 : Nat)).size = 0 ∧
    ¬ (Image.ofDims 2 [2 ^ 32, 2 ^ 32] (0 : Nat)).flattenIndex [0, 0]
        < (Image.ofDims 2 [2 ^ 32, 2 ^ 32] (0 : Nat)).size := by
  obtain ⟨_, _, h⟩ := Image.ofDims_spec 2 [2 ^ 32, 2 ^ 32] (0 : Nat) (by decide) rfl
  have hs : (Image.ofDims 2 [2 ^ 32, 2 ^ 32] (0 : Nat)).size = 0 := by
    rw [h]
    norm_num [sizeMod]
  have hf : (Image.ofDims 2 [2 ^ 32, 2 ^ 32] (0 : Nat)).flattenIndex [0, 0] = 0 := by
    simp [Image.flattenIndex, Indexer.flatten, mulSize, addSize]
  refine ⟨?_, ?_, hf, hs, by rw [hf, hs]; exact lt_irrefl 0⟩
  · intro d hd
    simp at hd
    subst hd
    norm_num
  · refine ⟨rfl, ?_⟩
    intro i hi
    have : i = 0 ∨ i = 1 := by simp at hi; omega
    rcases this with h | h <;> subst h <;> simp

/-- C12 as amended: for an image whose dimensions are all positive and have a product
below `2^64`, flattening restricted to in-range indices is a bijection onto the
offsets below the data size: every in-range index maps below the size, distinct
in-range indices map to distinct offsets, and every offset below the size is
hit. -/
theorem Image.flatten_bijective {ε : Type} (D : Nat) (dims : List Nat) (value : ε)
    (hD : 0 < D) (hlen : dims.length = D) (hpos : ∀ d ∈ dims, 0 < d)
    (hfit : dims.prod < sizeMod) :
    (∀ loc, Image.inRange dims loc →
      (Image.ofDims D dims value).flattenIndex loc < (Image.ofDims D dims value).size) ∧
    (∀ loc1 loc2, Image.inRange dims loc1 → Image.inRange dims loc2 →
      (Image.ofDims D dims value).flattenIndex loc1
        = (Image.ofDims D dims value).flattenIndex loc2 → loc1 = loc2) ∧
    (∀ k, k < (Image.ofDims D dims value).size →
      ∃ loc, Image.inRange dims loc ∧ (Image.ofDims D dims value).flattenIndex loc = k) := by
  obtain ⟨_, _, h3⟩ := Image.ofDims_spec D dims value hD hlen
  have hsize : (Image.ofDims D dims value).size = dims.prod := by
    rw [h3]
    exact Nat.mod_eq_of_lt hfit
  have hflat := Image.flattenIndex_eq_radix D dims value hD hlen hpos hfit
  refine ⟨?_, ?_, ?_⟩
  · intro loc hin
    rw [hflat loc hin, hsize]
    exact Image.radix_lt dims loc hin
  · intro loc1 loc2 h1 h2 he
    rw [hflat loc1 h1, hflat loc2 h2] at he
    exact Image.radix_injective dims loc1 loc2 h1 h2 he
  · intro k hk
    rw [hsize] at hk
    obtain ⟨loc, hin, hr⟩ := Image.radix_surjective dims k hk
    exact ⟨loc, hin, by rw [hflat loc hin, hr]⟩

/-- Witness for the amended C12: the image of dimensions `(2, 3, 4)`, where the
in-range index `(1, 2, 3)` maps below the data size. -/
theorem Image.flatten_bijective_witness :
    0 < 3 ∧ ([2, 3, 4] : List Nat).length = 3 ∧ (∀ d ∈ ([2, 3, 4] : List Nat), 0 < d) ∧
    ([2, 3, 4] : List Nat).prod < sizeMod ∧ Image.inRange [2, 3, 4] [1, 2, 3] ∧
    (Image.ofDims 3 [2, 3, 4] (0 : Nat)).flattenIndex [1, 2, 3]
      < (Image.ofDims 3 [2, 3, 4] (0 : Nat)).size := by
  have hpos : ∀ d ∈ ([2, 3, 4] : List Nat), 0 < d := by decide
  have hfit : ([2, 3, 4] : List Nat).prod < sizeMod := by decide
  have hin : Image.inRange [2, 3, 4] [1, 2, 3] := by
    refine ⟨rfl, ?_⟩
    intro i hi
    have : i = 0 ∨ i = 1 ∨ i = 2 := by simp at hi; omega
    rcases this with h | h | h <;> subst h <;> simp
  exact ⟨by decide, rfl, hpos, hfit, hin,
    (Image.flatten_bijective 3 [2, 3, 4] (0 : Nat) (by decide) rfl hpos hfit).1 _ hin⟩

/-- C13, the code at the failing input: on the four-dimensional image of dimensions
`(1, 1, 1, 1)`, `at` with index `(0, 0, 0, 5)` raises nothing although component 3
is not below the dimension on axis 3, and the offset 5 it accesses is not below
the data size 1. -/
theorem Image.at_unchecked_axis :
    (Image.ofDims 4 [1, 1, 1, 1] (0 : Nat)).at [0, 0, 0, 5] = .ok 5 ∧
    ¬ ([0, 0, 0, 5] : List Nat).getD 3 0
        < (Image.ofDims 4 [1, 1, 1, 1] (0 : Nat)).dims.getD 3 0 ∧
    (Image.ofDims 4 [1, 1, 1, 1] (0 : Nat)).size = 1 ∧
    ¬ 5 < (Image.ofDims 4 [1, 1, 1, 1] (0 : Nat)).size := by
  obtain ⟨h1, _, h3⟩ := Image.ofDims_spec 4 [1, 1, 1, 1] (0 : Nat) (by decide) rfl
  have hs : ∀ j, j < 4 → (Image.ofDims 4 [1, 1, 1, 1] (0 : Nat)).strides.getD j 0 = 1 := by
    intro j hj
    rw [h1 j hj]
    interval_cases j <;> simp [sizeMod]
  have hsize : (Image.ofDims 4 [1, 1, 1, 1] (0 : Nat)).size = 1 := by
    rw [h3]
    simp [sizeMod]
  have hflat : (Image.ofDims 4 [1, 1, 1, 1] (0 : Nat)).flattenIndex [0, 0, 0, 5] = 5 := by
    unfold Image.flattenIndex
    rw [Indexer.flatten_sum _ _ (hs 0 (by decide)) (by simp [sizeMod]) 3]
    rw [Finset.sum_range_succ, Finset.sum_range_succ, Finset.sum_range_succ,
      Finset.sum_range_one, hs 0 (by decide), hs 1 (by decide), hs 2 (by decide),
      hs 3 (by decide)]
    simp [sizeMod]
  have hloop : Image.atLoop (Image.ofDims 4 [1, 1, 1, 1] (0 : Nat)).dims [0, 0, 0, 5] 3 0
      = .ok () := by
    rfl
  refine ⟨?_, by simp [Image.ofDims], hsize, by rw [hsize]; decide⟩
  unfold Image.at
  rw [hloop, hflat]
  rfl

/-- C14, the code at the failing input: the constructor builds the same source for any
two non-null label lists supplied, so the source cannot hold the supplied list;
with the base class leaving the pointer null, supplying list 7 yields a source
marked external whose label list pointer is null. The flag follows the argument,
and the destructor frees the list the member points at exactly when the flag is
false. -/
theorem LabelledTrackvisDataSource.new_ignores_list :
    (∀ (env : TrackvisEnv) (fileStem : String) (p q : Nat),
      LabelledTrackvisDataSource.new env fileStem (some p)
        = LabelledTrackvisDataSource.new env fileStem (some q)) ∧
    LabelledTrackvisDataSource.new exampleTrackvisEnv "a" (some 7)
      = .ok { labelList := none, externalLabelList := true, auxAttached := true } ∧
    LabelledTrackvisDataSource.new exampleTrackvisEnv "a" none
      = .ok { labelList := none, externalLabelList := false, auxAttached := true } ∧
    (∀ (s : LabelledTrackvisDataSource) (live : List Nat),
      s.externalLabelList = true → s.destroy live = live) ∧
    (∀ (s : LabelledTrackvisDataSource) (live : List Nat) (p : Nat),
      s.externalLabelList = false → s.labelList = some p →
      s.destroy live = live.erase p) := by
  refine ⟨fun _ _ _ _ => rfl, rfl, rfl, ?_, ?_⟩
  · intro s live h
    simp [LabelledTrackvisDataSource.destroy, h]
  · intro s live p h hp
    simp [LabelledTrackvisDataSource.destroy, h, hp]

/-- A run of `get` calls that return yields one streamline per call, moves the
cursor by the number of calls and keeps the total. -/
theorem StreamlineFileSource.getAll_cursor {β : Type} (env : SourceEnv β)
    (inputs : List Streamline) :
    ∀ (s s1 : StreamlineFileSource β) (outs : List Streamline),
      StreamlineFileSource.getAll env s inputs = .ok (s1, outs) →
      outs.length = inputs.length ∧
      s1.currentStreamline = s.currentStreamline + inputs.length ∧
      s1.totalStreamlines = s.totalStreamlines := by
  induction inputs with
  | nil =>
    intro s s1 outs h
    simp only [StreamlineFileSource.getAll, pure, Except.pure, Except.ok.injEq,
      Prod.mk.injEq] at h
    obtain ⟨h1, h2⟩ := h
    subst h1 h2
    simp
  | cons d ds ih =>
    intro s s1 outs h
    unfold StreamlineFileSource.getAll at h
    cases hg : s.get env d with
    | error e => rw [hg] at h; cases h
    | ok r =>
      rw [hg] at h
      cases hrest : StreamlineFileSource.getAll env r.1 ds with
      | error e => simp only [hrest] at h; cases h
      | ok r2 =>
        simp only [hrest, pure, Except.pure, Except.ok.injEq, Prod.mk.injEq] at h
        obtain ⟨h1, h2⟩ := h
        subst h1 h2
        obtain ⟨_, _, f3, f4⟩ := StreamlineFileSource.get_frame env s r.1 d r.2 hg
        obtain ⟨i1, i2, i3⟩ := ih r.1 r2.1 r2.2 hrest
        exact ⟨by simp [i1], by rw [i2, f4]; simp; omega, by rw [i3, f3]⟩

/-- With `n` streamlines left and more fuel than that, the loop over `more()`
makes exactly the `n` `get` calls that return and stops on `more()` being
false. -/
theorem StreamlineFileSource.drain_spec {β : Type} (env : SourceEnv β) (n : Nat) :
    ∀ (fuel : Nat) (s s1 : StreamlineFileSource β) (outs : List Streamline),
      s.totalStreamlines - s.currentStreamline = n →
      s.currentStreamline ≤ s.totalStreamlines → n < fuel →
      StreamlineFileSource.getAll env s (List.replicate n Streamline.empty) = .ok (s1, outs) →
      StreamlineFileSource.drain env fuel s = .ok (s1, outs) ∧ s1.more = false := by
  induction n with
  | zero =>
    intro fuel s s1 outs hn hle hf h
    simp only [List.replicate, StreamlineFileSource.getAll, pure, Except.pure,
      Except.ok.injEq, Prod.mk.injEq] at h
    obtain ⟨h1, h2⟩ := h
    subst h1 h2
    obtain ⟨f, rfl⟩ : ∃ f, fuel = f + 1 := ⟨fuel - 1, by omega⟩
    have hm : s.more = false := by
      simp only [StreamlineFileSource.more, decide_eq_false_iff_not]
      omega
    exact ⟨by simp [StreamlineFileSource.drain, hm, pure, Except.pure], hm⟩
  | succ n ih =>
    intro fuel s s1 outs hn hle hf h
    obtain ⟨f, rfl⟩ : ∃ f, fuel = f + 1 := ⟨fuel - 1, by omega⟩
    have hm : s.more = true := by
      simp only [StreamlineFileSource.more, decide_eq_true_eq]
      omega
    simp only [List.replicate] at h
    unfold StreamlineFileSource.getAll at h
    cases hg : s.get env Streamline.empty with
    | error e => rw [hg] at h; cases h
    | ok r =>
      rw [hg] at h
      cases hrest : StreamlineFileSource.getAll env r.1 (List.replicate n Streamline.empty) with
      | error e => simp only [hrest] at h; cases h
      | ok r2 =>
        simp only [hrest, pure, Except.pure, Except.ok.injEq, Prod.mk.injEq] at h
        obtain ⟨h1, h2⟩ := h
        subst h1 h2
        obtain ⟨_, _, f3, f4⟩ :=
          StreamlineFileSource.get_frame env s r.1 Streamline.empty r.2 hg
        obtain ⟨d1, d2⟩ := ih f r.1 r2.1 r2.2 (by rw [f3, f4]; omega) (by rw [f3, f4]; omega)
          (by omega) hrest
        refine ⟨?_, d2⟩
        rw [StreamlineFileSource.drain]
        simp only [hm, if_true, hg, d1, pure, Except.pure]

/-- A `get` that returns has made the adapter's `read` on the streamline passed
in: the adapter afterwards is the one `read` left and the streamline is the one
`read` left, up to its labels; and `get` fails exactly when `read` fails. -/
theorem StreamlineFileSource.get_reads {β : Type} (env : SourceEnv β)
    (s : StreamlineFileSource β) (data : Streamline) :
    (∀ s1 d1, s.get env data = .ok (s1, d1) →
      ∃ r, s.source.read env data = .ok r ∧ s1.source = r.1 ∧
        d1.points = r.2.points ∧ d1.seed = r.2.seed) ∧
    (∀ e, s.get env data = .error e ↔ s.source.read env data = .error e) := by
  unfold StreamlineFileSource.get
  cases hr : s.source.read env data with
  | error e1 =>
    exact ⟨fun s1 d1 h => (by cases h), fun e => by simp⟩
  | ok r =>
    refine ⟨?_, fun e => by simp [pure, Except.pure]⟩
    intro s1 d1 h
    simp only [pure, Except.pure, Except.ok.injEq, Prod.mk.injEq] at h
    obtain ⟨h1, h2⟩ := h
    subst h1 h2
    refine ⟨r, rfl, rfl, ?_, ?_⟩
    · split <;> rfl
    · split <;> rfl

/-- A run of `get` calls that return has made exactly the `read` calls of the
run on the adapter, one per `get` and in order. -/
theorem StreamlineFileSource.getAll_reads {β : Type} (env : SourceEnv β)
    (inputs : List Streamline) :
    ∀ (s s1 : StreamlineFileSource β) (outs : List Streamline),
      StreamlineFileSource.getAll env s inputs = .ok (s1, outs) →
      List.foldlM (fun a d => (SourceFileAdapter.read env a d).map Prod.fst) s.source inputs
        = .ok s1.source := by
  induction inputs with
  | nil =>
    intro s s1 outs h
    simp only [StreamlineFileSource.getAll, pure, Except.pure, Except.ok.injEq,
      Prod.mk.injEq] at h
    obtain ⟨h1, _⟩ := h
    subst h1
    rfl
  | cons d ds ih =>
    intro s s1 outs h
    unfold StreamlineFileSource.getAll at h
    cases hg : s.get env d with
    | error e => rw [hg] at h; cases h
    | ok r =>
      rw [hg] at h
      cases hrest : StreamlineFileSource.getAll env r.1 ds with
      | error e => simp only [hrest] at h; cases h
      | ok r2 =>
        simp only [hrest, pure, Except.pure, Except.ok.injEq, Prod.mk.injEq] at h
        obtain ⟨h1, _⟩ := h
        subst h1
        obtain ⟨rd, hrd, hsrc, _⟩ := (StreamlineFileSource.get_reads env s d).1 r.1 r.2 hg
        have := ih r.1 r2.1 r2.2 hrest
        rw [List.foldlM_cons, hrd]
        simp only [Except.map]
        rw [hsrc] at this
        exact this

/-- C16: for a freshly constructed source whose reader reports `N` streamlines, every
`get` that returns makes one `read` on the adapter and moves the cursor by exactly
one; after any run of `j` such calls the cursor is `j`, the adapter has been read
`j` times and `more()` holds exactly when `j < N`; and the loop that calls `get`
while `more()` holds makes exactly `N` reads on the adapter and stops. -/
theorem StreamlineFileSource.more_counts_gets {β : Type} (env : SourceEnv β)
    (fileStem : String) (readLabels : Bool) (s0 : StreamlineFileSource β)
    (hnew : StreamlineFileSource.new env fileStem readLabels = .ok s0) :
    s0.currentStreamline = 0 ∧ s0.totalStreamlines = s0.source.nStreamlines ∧
    (∀ (s s1 : StreamlineFileSource β) (data d1 : Streamline),
      s.get env data = .ok (s1, d1) →
      s1.currentStreamline = s.currentStreamline + 1 ∧
      ∃ r, s.source.read env data = .ok r ∧ s1.source = r.1 ∧
        d1.points = r.2.points ∧ d1.seed = r.2.seed) ∧
    (∀ (s : StreamlineFileSource β) (data : Streamline) (e : String),
      s.get env data = .error e ↔ s.source.read env data = .error e) ∧
    (∀ (inputs : List Streamline) (s : StreamlineFileSource β) (outs : List Streamline),
      StreamlineFileSource.getAll env s0 inputs = .ok (s, outs) →
      s.currentStreamline = inputs.length ∧
      (s.more = true ↔ inputs.length < s0.totalStreamlines) ∧
      List.foldlM (fun a d => (SourceFileAdapter.read env a d).map Prod.fst) s0.source
        inputs = .ok s.source) ∧
    (∀ (fuel : Nat) (s : StreamlineFileSource β) (outs : List Streamline),
      s0.totalStreamlines < fuel →
      StreamlineFileSource.getAll env s0
        (List.replicate s0.totalStreamlines Streamline.empty) = .ok (s, outs) →
      StreamlineFileSource.drain env fuel s0 = .ok (s, outs) ∧
      outs.length = s0.totalStreamlines ∧ s.more = false ∧
      List.foldlM (fun a d => (SourceFileAdapter.read env a d).map Prod.fst) s0.source
        (List.replicate s0.totalStreamlines Streamline.empty) = .ok s.source) := by
  have hfresh : s0.currentStreamline = 0 ∧ s0.totalStreamlines = s0.source.nStreamlines := by
    cases hsel : StreamlineFileSource.selectSource env fileStem with
    | error e =>
      unfold StreamlineFileSource.new at hnew
      rw [hsel] at hnew
      cases hnew
    | ok a0 =>
      obtain ⟨hA, _⟩ := StreamlineFileSource.new_after_select env fileStem readLabels a0 hsel
      obtain ⟨_, _, k3, k4⟩ := hA s0 hnew
      exact ⟨k3, k4⟩
  obtain ⟨hc, ht⟩ := hfresh
  refine ⟨hc, ht, ?_, ?_, ?_, ?_⟩
  · intro s s1 data d1 h
    exact ⟨(StreamlineFileSource.get_frame env s s1 data d1 h).2.2.2,
      (StreamlineFileSource.get_reads env s data).1 s1 d1 h⟩
  · intro s data e
    exact (StreamlineFileSource.get_reads env s data).2 e
  · intro inputs s outs h
    obtain ⟨_, g2, g3⟩ := StreamlineFileSource.getAll_cursor env inputs s0 s outs h
    rw [hc] at g2
    refine ⟨by omega, ?_, StreamlineFileSource.getAll_reads env inputs s0 s outs h⟩
    simp only [StreamlineFileSource.more, decide_eq_true_eq, g3]
    omega
  · intro fuel s outs hf h
    obtain ⟨g1, _, _⟩ := StreamlineFileSource.getAll_cursor env _ s0 s outs h
    obtain ⟨d1, d2⟩ := StreamlineFileSource.drain_spec env s0.totalStreamlines fuel s0 s outs
      (by rw [hc]; omega) (by rw [hc]; omega) hf h
    exact ⟨d1, by simpa using g1, d2, StreamlineFileSource.getAll_reads env _ s0 s outs h⟩

/-- Witness for C16: the example file of two streamlines; the loop over `more()`
returns two streamlines, leaves `more()` false and has read the adapter twice. -/
theorem StreamlineFileSource.more_counts_gets_witness :
    ∃ s0 s outs,
      StreamlineFileSource.new labelledExampleEnv "a" true = .ok s0 ∧
      s0.totalStreamlines = 2 ∧
      StreamlineFileSource.drain labelledExampleEnv 3 s0 = .ok (s, outs) ∧
      outs.length = s0.totalStreamlines ∧ s.more = false ∧
      List.foldlM (fun a d => (SourceFileAdapter.read labelledExampleEnv a d).map Prod.fst)
        s0.source (List.replicate s0.totalStreamlines Streamline.empty) = .ok s.source := by
  have h : ∃ s0 s outs,
      StreamlineFileSource.new labelledExampleEnv "a" true = .ok s0 ∧
      s0.totalStreamlines = 2 ∧
      StreamlineFileSource.getAll labelledExampleEnv s0
        (List.replicate s0.totalStreamlines Streamline.empty) = .ok (s, outs) :=
    ⟨_, _, _, rfl, rfl, rfl⟩
  obtain ⟨s0, s, outs, h1, h2, h3⟩ := h
  exact ⟨s0, s, outs, h1, h2,
    (StreamlineFileSource.more_counts_gets labelledExampleEnv "a" true s0 h1).2.2.2.2.2 3 s outs
      (by rw [h2]; decide) h3⟩

end Tractor
